import Mathlib

set_option maxHeartbeats 1000000

/-!
Verification development for the `batch-av1` transcoding orchestrator
(src/main.rs). The per-file pipeline of `run_all`, the single-file
fixed-quality command, and the supporting path/probe/renamer helpers are
shallowly embedded below. Everything the program obtains from outside its
own code (external crates and external processes) is supplied by an
`Env` of oracles, and the file system is modelled as the set of existing
regular-file paths.
-/

namespace BatchAv1

/-- Structural decidable equality for `Except`, so that concrete pipeline
outcomes can be checked by `decide`. -/
instance {ε α : Type} [DecidableEq ε] [DecidableEq α] : DecidableEq (Except ε α)
  | .error a, .error b => decidable_of_iff (a = b) (by simp)
  | .error _, .ok _ => isFalse (fun h => Except.noConfusion h)
  | .ok _, .error _ => isFalse (fun h => Except.noConfusion h)
  | .ok a, .ok b => decidable_of_iff (a = b) (by simp)

/-- A file system is modelled as the set of paths of existing regular files,
represented as a list of path strings. Directories are not modelled: the
`fs::create_dir_all` calls in the source are no-ops at this abstraction
level. -/
abbrev FS := List String

/-- Rust `Path::join` at the call sites of the source, where the appended
component is a relative name. -/
def pathJoin (dir name : String) : String := dir ++ "/" ++ name

/-- The path `p` denotes an entry strictly inside directory `dir`:
`dir ++ "/"` is a prefix of `p`. -/
def underDir (dir p : String) : Prop := (dir.toList ++ ['/']) <+: p.toList

instance (dir p : String) : Decidable (underDir dir p) := by
  unfold underDir
  infer_instance

/-- The last component of a path: the longest suffix without a slash. -/
def lastComp (s : String) : String :=
  ⟨(s.toList.reverse.takeWhile (fun c => c != '/')).reverse⟩

/-- Rust `Path::file_name`, restricted to the path shapes arising in this
program: the final path component, or `none` when that component is empty,
`.` or `..`. -/
def fileNameOf (s : String) : Option String :=
  let l := lastComp s
  if l = "" ∨ l = "." ∨ l = ".." then none else some l

/-- Rust `Path::file_stem` on a file name, as a character list: the portion
before the last dot, except that a name whose portion before its last dot is
empty (such as `.hidden`), or which has no dot at all, is its own stem. -/
def stemChars (l : List Char) : List Char :=
  match l.reverse.dropWhile (fun c => c != '.') with
  | [] => l
  | _ :: pre => if pre = [] then l else pre.reverse

/-- Rust `Path::with_extension "mkv"` on a file name: drop the extension (the
part after the last dot, when the stem is nonempty) and append `.mkv`. -/
def withExtMkv (name : String) : String :=
  (⟨stemChars name.toList⟩ : String) ++ ".mkv"

/-- Rust `Path::with_extension "mkv"` on a full path: rewrite the last
component. All call sites pass paths whose last component is a nonempty
proper file name. -/
def pathWithExtMkv (s : String) : String :=
  (⟨(s.toList.reverse.dropWhile (fun c => c != '/')).reverse⟩ : String) ++
    withExtMkv (lastComp s)

/-- Rust `str::split(sep)` on a character list: the (possibly empty)
fragments between occurrences of `sep`. Always yields at least one
fragment. -/
def splitOnChar (sep : Char) : List Char → List (List Char)
  | [] => [[]]
  | c :: rest =>
    let r := splitOnChar sep rest
    if c = sep then [] :: r
    else
      match r with
      | [] => [[c]]
      | h :: t => (c :: h) :: t

/-- Rust `str::trim` on a character list: remove whitespace from both
ends. -/
def trimChars (l : List Char) : List Char :=
  ((l.dropWhile Char.isWhitespace).reverse.dropWhile Char.isWhitespace).reverse

/-- Numeric value of a list of decimal digit characters. -/
def digitsVal (l : List Char) : Nat :=
  l.foldl (fun a c => a * 10 + (c.toNat - 48)) 0

/-- Rust `u32::from_str`: an optional leading `+`, then one or more ASCII
digits, with the value required to fit in 32 bits. -/
def parseU32 (s : String) : Option Nat :=
  let l := match s.toList with
    | '+' :: rest => rest
    | l => l
  if l ≠ [] ∧ l.all (fun c => c.isDigit) ∧ digitsVal l < 2 ^ 32 then
    some (digitsVal l)
  else none

/-- An exact (unnormalized) fraction with a positive denominator, used to
represent parsed durations. Plain integer arithmetic keeps every comparison
kernel-computable. -/
structure Frac where
  num : Int
  den : Nat
deriving DecidableEq

/-- The rational value of a fraction. -/
def Frac.val (a : Frac) : Rat := (a.num : Rat) / (a.den : Rat)

/-- Rust `f64::from_str`, restricted to the plain decimal fragment
`[+-]digits[.digits]` (no exponent, infinity or nan forms), and idealized to
an exact rational value: the claims about duration parsing concern which
strings parse and the sign of the result, not floating-point rounding. -/
def parseF64 (s : String) : Option Frac :=
  let sl : Int × List Char := match s.toList with
    | '+' :: rest => (1, rest)
    | '-' :: rest => (-1, rest)
    | l => (1, l)
  let sgn := sl.1
  let l := sl.2
  let ip := l.takeWhile Char.isDigit
  match l.drop ip.length with
  | [] => if ip = [] then none else some ⟨sgn * digitsVal ip, 1⟩
  | '.' :: rest =>
    let fp := rest.takeWhile Char.isDigit
    if rest.length = fp.length ∧ (ip ≠ [] ∨ fp ≠ []) then
      some ⟨sgn * (digitsVal ip * 10 ^ fp.length + digitsVal fp), 10 ^ fp.length⟩
    else none
  | _ => none

/-- Captured output of an external process invocation: its exit status and
the bytes it produced on the standard streams (as strings; all strings in
this model are valid UTF-8, so `from_utf8_lossy` is the identity). -/
structure ProcOutput where
  success : Bool
  stdout : String
  stderr : String
deriving DecidableEq

/-- The `RenamerConfig` of the source. -/
structure RenamerConfig where
  command : String
  args : List String
  bytes_limit : Nat
  chars_limit : Nat
deriving DecidableEq

/-- The `Config` of the source. -/
structure Config where
  save_dir : String
  tmp_dir : String
  min_crf : Nat
  max_crf : Nat
  max_encoded_percent : Nat
  keep_original : Bool
  move_failed_files : Bool
  delete_almost_same_files : Bool
  renamer : Option RenamerConfig
deriving DecidableEq

/-- Result of one encoder invocation that did launch: its exit status, and
whether it left a file at the requested output path. -/
structure EncResult where
  success : Bool
  wrote_output : Bool
deriving DecidableEq

/-- Oracles for everything the program obtains from outside its own code:
external crates (`blake3` hashing, `junk_file::is_junk`, `mime_guess`) and
external processes (`ffprobe` geometry and duration queries, `ab-av1`,
`ffmpeg`, and the configured renamer command). A `none` from a process
oracle models a failure to launch the process at all. Oracles are functions
of the involved paths, so external behaviour is deterministic per path. -/
structure Env where
  hash_file_location : String → String
  is_junk : String → Bool
  guess_video_file : String → Bool
  probe_geometry : String → Option ProcOutput
  probe_duration : String → Option ProcOutput
  renamer_output : String → Option ProcOutput
  encoder_result : String → String → Option EncResult
  force_crf_result : String → String → Option EncResult

/-- The `Error` enum of the source (the variants that can escape from the
embedded functions; `AbAv1CommandFailed` is caught inside the `run_all` loop
and never escapes it, and operating-system errors propagated by `?` are
collapsed into `ioError`). -/
inductive Err where
  | invalidVideoPath (p : String)
  | conflictVideoEncoding (video encoding : String)
  | conflictFailedCopyPath (video failedCopy : String)
  | singleEncodeSavePathAlreadyExists (p : String)
  | singleEncodeFailedWithInvalidEncodedFile (video encoding : String)
  | forceCrfFfmpegCommandFailed
  | ffprobeCheckValidVideoFailed (msg : String)
  | ffprobeShowDurationFailed (msg : String)
  | parseDurationSecondsFailed (msg : String)
  | foundInvalidVideoFileInSavedPath (p : String)
  | renamerCommandFailed (stderr : String)
  | tooManyCharsInRenamedFilename (s : String)
  | tooManyBytesInRenamedFilename (s : String)
  | ioError
deriving DecidableEq

/-- The console notices printed by the pipeline (the `println!` calls of the
loop; the timing notice guarded by wall-clock time is not modelled). -/
inductive Msg where
  | removingJunkFile
  | skippingNonVideoFile
  | skippingInvalidVideoFile
  | removingAlmostSameDurationFile
  | skippingDifferentDurations
  | skippingAlreadyExists
  | encodingVideo
  | savingVideo
  | removingOriginalVideo
  | movingFailedVideo
deriving DecidableEq

/-- Observable actions of a pipeline run: file-system writes, external
encoder and renamer invocations, and console notices. -/
inductive Event where
  | removedFile (p : String)
  | movedFile (src dst : String)
  | wroteFile (p : String)
  | invokedEncoder (input output : String)
  | invokedRenamer (p : String)
  | printed (m : Msg)
deriving DecidableEq

/-- Rust `fs::remove_file`: fails when the path does not exist. -/
def removeFile (fs : FS) (p : String) : Option FS :=
  if p ∈ fs then some (fs.filter (fun q => q != p)) else none

/-- The crate helper `jdt::rename_file` (rename, with a copy-then-delete
fallback across devices): the net effect is that the source is gone and the
destination exists (overwriting any previous file there). Fails when the
source does not exist. -/
def moveFile (fs : FS) (src dst : String) : Option FS :=
  if src ∈ fs then some ((fs.filter (fun q => q != src)).insert dst) else none

/-- Modelled from the spec: `jdt::almost_eq` from the external `jdt` crate
(not part of this repository's sources) compares two numbers for equality
within a small relative tolerance `tol` (§4.8 step 4: "compare its duration
to the source's duration within a small relative tolerance (≈1%)"). The
relation `|a - b| ≤ tol * max |a| |b|` is stated over exact fractions in
cross-multiplied integer form (all denominators are positive). -/
def almost_eq (a b tol : Frac) : Bool :=
  decide ((a.num * b.den - b.num * a.den).natAbs * tol.den ≤
    tol.num * max (a.num.natAbs * b.den) (b.num.natAbs * a.den))

/-- The `renamed_video_filename` function of the source. Besides the chosen
name it reports the renamer invocation as an event. -/
def renamed_video_filename (env : Env) (renamer : RenamerConfig) (path : String) :
    Except Err (String × List Event) :=
  match fileNameOf path with
  | none => .error (.invalidVideoPath path)
  | some filename =>
    if filename.length ≤ renamer.chars_limit ∧
        filename.utf8ByteSize ≤ renamer.bytes_limit then
      .ok (filename, [])
    else
      match env.renamer_output path with
      | none => .error .ioError
      | some out =>
        if !out.success then .error (.renamerCommandFailed out.stderr)
        else
          let stdout : String := ⟨trimChars out.stdout.toList⟩
          if stdout.length > renamer.chars_limit then
            .error (.tooManyCharsInRenamedFilename stdout)
          else if stdout.utf8ByteSize > renamer.bytes_limit then
            .error (.tooManyBytesInRenamedFilename stdout)
          else .ok (stdout, [.invokedRenamer path])

/-- The `destination_filename` function of the source. -/
def destination_filename (cfg : Config) (env : Env) (path : String) :
    Except Err (String × List Event) :=
  match cfg.renamer with
  | some rc => renamed_video_filename env rc path
  | none =>
    match fileNameOf path with
    | none => .error (.invalidVideoPath path)
    | some filename => .ok (filename, [])

/-- The `encoded_file_save_path` function of the source. The source's
`rsplitn(1, b'.')` yields at most one fragment, namely the whole byte slice,
so the "slug" is the entire file name and the single trailing extension is
then handled by `with_extension("mkv")`. -/
def encoded_file_save_path (cfg : Config) (env : Env) (video_path : String) :
    Except Err (String × List Event) :=
  match fileNameOf video_path with
  | none => .error (.invalidVideoPath video_path)
  | some video_filename =>
    let video_slug := video_filename
    let pre_save_path := pathWithExtMkv (pathJoin cfg.save_dir video_slug)
    match destination_filename cfg env pre_save_path with
    | .error e => .error e
    | .ok (save_video_filename, evs) =>
      .ok (pathJoin cfg.save_dir save_video_filename, evs)

/-- The `is_valid_video_file` function of the source: geometry probe via
`ffprobe`. A launch failure or malformed geometry output is an error; a
non-zero probe exit returns `false`; otherwise the first line of standard
output must be `width,height` with both positive. -/
def is_valid_video_file (env : Env) (video_path : String) : Except Err Bool :=
  match env.probe_geometry video_path with
  | none => .error (.ffprobeCheckValidVideoFailed video_path)
  | some output =>
    if !output.success then .ok false
    else
      let first_line : String :=
        ⟨trimChars ((splitOnChar '\n' output.stdout.toList).headD [])⟩
      match (splitOnChar ',' first_line.toList).map (fun l => (⟨l⟩ : String)) with
      | width_str :: height_str :: _ =>
        match parseU32 width_str, parseU32 height_str with
        | some width, some height =>
          .ok (decide (0 < width) && decide (0 < height))
        | _, _ => .error (.ffprobeCheckValidVideoFailed first_line)
      | _ => .error (.ffprobeCheckValidVideoFailed first_line)

/-- The `rough_video_secs` function of the source: duration probe via
`ffprobe`. The exit status of a launched probe is ignored; the trimmed
standard output is parsed as an `f64`. -/
def rough_video_secs (env : Env) (video_path : String) : Except Err Frac :=
  match env.probe_duration video_path with
  | none => .error (.ffprobeShowDurationFailed video_path)
  | some output =>
    let secs_str : String := ⟨trimChars output.stdout.toList⟩
    match parseF64 secs_str with
    | none => .error (.parseDurationSecondsFailed secs_str)
    | some secs => .ok secs

/-- The hash-named temporary encode path of a source file:
`tmp_dir/encoding/<location hash>` with extension forced to `mkv`. -/
def encodingPathOf (cfg : Config) (env : Env) (video_path : String) : String :=
  pathWithExtMkv (pathJoin (pathJoin cfg.tmp_dir "encoding")
    (env.hash_file_location video_path))

/-- Outcome of a pipeline step or run: the resulting file system, the
observable events in order, and the error that aborted processing, if any. -/
structure Step where
  fs : FS
  events : List Event
  err : Option Err
deriving DecidableEq

/-- Tail of the success branch of one `run_all` iteration (and of the
single-file command): promote the encode to the save path, then delete the
original unless `keep_original` is set. -/
def run_all_save (cfg : Config) (fs : FS) (evs : List Event)
    (video_path encoding_video_path save_path : String) : Step :=
  match moveFile fs encoding_video_path save_path with
  | none => ⟨fs, evs, some .ioError⟩
  | some fs1 =>
    let evs := evs ++ [.printed .savingVideo,
      .movedFile encoding_video_path save_path]
    if !cfg.keep_original then
      match removeFile fs1 video_path with
      | none => ⟨fs1, evs, some .ioError⟩
      | some fs2 =>
        ⟨fs2, evs ++ [.printed .removingOriginalVideo,
          .removedFile video_path], none⟩
    else ⟨fs1, evs, none⟩

/-- The encode stage of one `run_all` iteration (the tail of the loop body,
src/main.rs lines 198-237): invoke the adaptive encoder; on success validate
the produced file, discard it when invalid, and otherwise promote it; on a
non-zero encoder exit delete any partial output and, when
`move_failed_files` is set, relocate the original to the failed-copy
path. -/
def run_all_encode (cfg : Config) (env : Env) (fs : FS)
    (video_path encoding_video_path save_path failed_copy_path : String)
    (evs : List Event) : Step :=
  let evs := evs ++ [.printed .encodingVideo,
    .invokedEncoder video_path encoding_video_path]
  match env.encoder_result video_path encoding_video_path with
  | none => ⟨fs, evs, some .ioError⟩
  | some res =>
  let fs1 := if res.wrote_output then fs.insert encoding_video_path else fs
  let evs := if res.wrote_output then evs ++ [.wroteFile encoding_video_path]
    else evs
  if res.success then
    if encoding_video_path ∈ fs1 then
      match is_valid_video_file env encoding_video_path with
      | .error e => ⟨fs1, evs, some e⟩
      | .ok false =>
        ⟨fs1.filter (fun q => q != encoding_video_path),
          evs ++ [.removedFile encoding_video_path], none⟩
      | .ok true =>
        run_all_save cfg fs1 evs video_path encoding_video_path save_path
    else run_all_save cfg fs1 evs video_path encoding_video_path save_path
  else
    let fs2 := if encoding_video_path ∈ fs1 then
      fs1.filter (fun q => q != encoding_video_path) else fs1
    let evs := if encoding_video_path ∈ fs1 then
      evs ++ [.removedFile encoding_video_path] else evs
    if cfg.move_failed_files then
      match moveFile fs2 video_path failed_copy_path with
      | none => ⟨fs2, evs ++ [.printed .movingFailedVideo], some .ioError⟩
      | some fs3 =>
        ⟨fs3, evs ++ [.printed .movingFailedVideo,
          .movedFile video_path failed_copy_path], none⟩
    else ⟨fs2, evs, none⟩

/-- One iteration of the `for video_path in video_paths` loop of `run_all`
(src/main.rs lines 138-238). The derived paths, including any renamer
invocations, are computed first, exactly as in the source; then the junk,
non-video, validity, duplicate, conflict, encode, and cleanup stages run in
source order. An `err` of `some e` aborts the whole run. -/
def run_all_step (cfg : Config) (env : Env) (fs : FS) (video_path : String) :
    Step :=
  let encoding_video_path := encodingPathOf cfg env video_path
  match encoded_file_save_path cfg env video_path with
  | .error e => ⟨fs, [], some e⟩
  | .ok (save_path, evs1) =>
  match destination_filename cfg env video_path with
  | .error e => ⟨fs, evs1, some e⟩
  | .ok (dst_video_filename, evs2) =>
  let failed_copy_path := pathJoin cfg.save_dir dst_video_filename
  let evs := evs1 ++ evs2
  if env.is_junk video_path then
    match removeFile fs video_path with
    | none => ⟨fs, evs ++ [.printed .removingJunkFile], some .ioError⟩
    | some fs1 =>
      ⟨fs1, evs ++ [.printed .removingJunkFile, .removedFile video_path],
        none⟩
  else if !env.guess_video_file video_path then
    ⟨fs, evs ++ [.printed .skippingNonVideoFile], none⟩
  else
  match is_valid_video_file env video_path with
  | .error e => ⟨fs, evs, some e⟩
  | .ok false => ⟨fs, evs ++ [.printed .skippingInvalidVideoFile], none⟩
  | .ok true =>
  if save_path ∈ fs then
    if cfg.delete_almost_same_files then
      match is_valid_video_file env save_path with
      | .error e => ⟨fs, evs, some e⟩
      | .ok false => ⟨fs, evs, some (.foundInvalidVideoFileInSavedPath save_path)⟩
      | .ok true =>
      match rough_video_secs env save_path with
      | .error e => ⟨fs, evs, some e⟩
      | .ok duration_of_saved_video =>
      match rough_video_secs env video_path with
      | .error e => ⟨fs, evs, some e⟩
      | .ok duration_of_current_video =>
      if almost_eq duration_of_saved_video duration_of_current_video ⟨1, 100⟩ then
        match removeFile fs video_path with
        | none =>
          ⟨fs, evs ++ [.printed .removingAlmostSameDurationFile], some .ioError⟩
        | some fs1 =>
          ⟨fs1, evs ++ [.printed .removingAlmostSameDurationFile,
            .removedFile video_path], none⟩
      else ⟨fs, evs ++ [.printed .skippingDifferentDurations], none⟩
    else ⟨fs, evs ++ [.printed .skippingAlreadyExists], none⟩
  else if cfg.move_failed_files ∧ failed_copy_path ∈ fs then
    ⟨fs, evs, some (.conflictFailedCopyPath video_path failed_copy_path)⟩
  else if encoding_video_path ∈ fs then
    ⟨fs, evs, some (.conflictVideoEncoding video_path encoding_video_path)⟩
  else
    run_all_encode cfg env fs video_path encoding_video_path save_path
      failed_copy_path evs

/-- The whole `run_all` loop over the list of discovered files (the walk
order is the list order). The run stops at the first iteration whose step
reports an error, as `?` / `return Err` do in the source; the file system
reached so far is returned in either case. -/
def run_all (cfg : Config) (env : Env) : List String → FS → Step
  | [], fs => ⟨fs, [], none⟩
  | video_path :: rest, fs =>
    let s := run_all_step cfg env fs video_path
    match s.err with
    | some e => ⟨s.fs, s.events, some e⟩
    | none =>
      let r := run_all cfg env rest s.fs
      ⟨r.fs, s.events ++ r.events, r.err⟩

/-- The `run_force_crf_single_command` function of the source (src/main.rs
lines 252-294): the single-file fixed-quality command. -/
def run_force_crf_single (cfg : Config) (env : Env) (fs : FS)
    (video_path : String) : Step :=
  let encoding_video_path := encodingPathOf cfg env video_path
  match encoded_file_save_path cfg env video_path with
  | .error e => ⟨fs, [], some e⟩
  | .ok (save_path, evs) =>
  if save_path ∈ fs then
    ⟨fs, evs, some (.singleEncodeSavePathAlreadyExists save_path)⟩
  else if encoding_video_path ∈ fs then
    ⟨fs, evs, some (.conflictVideoEncoding video_path encoding_video_path)⟩
  else
  let evs := evs ++ [.printed .encodingVideo,
    .invokedEncoder video_path encoding_video_path]
  match env.force_crf_result video_path encoding_video_path with
  | none => ⟨fs, evs, some .ioError⟩
  | some res =>
  let fs1 := if res.wrote_output then fs.insert encoding_video_path else fs
  let evs := if res.wrote_output then evs ++ [.wroteFile encoding_video_path]
    else evs
  if !res.success then ⟨fs1, evs, some .forceCrfFfmpegCommandFailed⟩
  else
  if encoding_video_path ∈ fs1 then
    match is_valid_video_file env encoding_video_path with
    | .error e => ⟨fs1, evs, some e⟩
    | .ok false =>
      ⟨fs1.filter (fun q => q != encoding_video_path),
        evs ++ [.removedFile encoding_video_path],
        some (.singleEncodeFailedWithInvalidEncodedFile video_path
          encoding_video_path)⟩
    | .ok true =>
      run_all_save cfg fs1 evs video_path encoding_video_path save_path
  else run_all_save cfg fs1 evs video_path encoding_video_path save_path

/-- Following the spec's words for `destinationSlug` (§4.4): split the file
name at its LAST dot into stem and trailing extension (the stem may itself
contain dots; a dotless name is all stem) and append the fixed target
extension `.mkv` to the stem. This spec-side definition is compared against
the source-side `encoded_file_save_path`. -/
def specSplitDestination (name : String) : String :=
  if name.toList.contains '.' then
    (⟨((name.toList.reverse.dropWhile (fun c => c != '.')).tail).reverse⟩ :
      String) ++ ".mkv"
  else name ++ ".mkv"

/-- Fixture: base configuration (keep originals, no failed-file moves, no
near-duplicate deletion, no renamer). -/
def wCfg : Config := ⟨"/save", "/tmp", 15, 50, 70, true, false, false, none⟩

/-- Fixture: configuration with `move_failed_files` set. -/
def wCfgMove : Config := ⟨"/save", "/tmp", 15, 50, 70, true, true, false, none⟩

/-- Fixture: configuration with `delete_almost_same_files` set. -/
def wCfgDel : Config := ⟨"/save", "/tmp", 15, 50, 70, true, false, true, none⟩

/-- Fixture: renamer rule with a 5-character limit. -/
def wRC5 : RenamerConfig := ⟨"ren", [], 100, 5⟩

/-- Fixture: renamer rule with a 10-character limit. -/
def wRC10 : RenamerConfig := ⟨"ren", [], 100, 10⟩

/-- Fixture: configuration with the 5-character renamer rule. -/
def wCfgRen : Config := ⟨"/save", "/tmp", 15, 50, 70, true, false, false, some wRC5⟩

/-- Fixture: environment in which every external interaction succeeds. -/
def wEnvOk : Env := ⟨fun _ => "cafe", fun _ => false, fun _ => true,
  fun _ => some ⟨true, "640,480", ""⟩, fun _ => some ⟨true, "120.0", ""⟩,
  fun _ => none, fun _ _ => some ⟨true, true⟩, fun _ _ => some ⟨true, true⟩⟩

/-- Fixture: environment whose geometry probe exits non-zero. -/
def wEnvProbeFail : Env := ⟨fun _ => "cafe", fun _ => false, fun _ => true,
  fun _ => some ⟨false, "", ""⟩, fun _ => some ⟨true, "120.0", ""⟩,
  fun _ => none, fun _ _ => some ⟨true, true⟩, fun _ _ => some ⟨true, true⟩⟩

/-- Fixture: environment whose duration probe reports `-5`. -/
def wEnvNegDur : Env := ⟨fun _ => "cafe", fun _ => false, fun _ => true,
  fun _ => some ⟨true, "640,480", ""⟩, fun _ => some ⟨true, "-5", ""⟩,
  fun _ => none, fun _ _ => some ⟨true, true⟩, fun _ _ => some ⟨true, true⟩⟩

/-- Fixture: environment where every file is junk and the renamer returns a
12-character name. -/
def wEnvJunkRen : Env := ⟨fun _ => "cafe", fun _ => true, fun _ => true,
  fun _ => some ⟨true, "640,480", ""⟩, fun _ => some ⟨true, "120.0", ""⟩,
  fun _ => some ⟨true, "stilltoolong", ""⟩,
  fun _ _ => some ⟨true, true⟩, fun _ _ => some ⟨true, true⟩⟩

/-- Fixture: environment whose renamer returns an 8-character name. -/
def wEnvRen8 : Env := ⟨fun _ => "cafe", fun _ => false, fun _ => true,
  fun _ => some ⟨true, "640,480", ""⟩, fun _ => some ⟨true, "120.0", ""⟩,
  fun _ => some ⟨true, "newname8", ""⟩,
  fun _ _ => some ⟨true, true⟩, fun _ _ => some ⟨true, true⟩⟩

/-- Fixture: environment whose encoder always fails after writing a partial
output file. -/
def wEnvFail : Env := ⟨fun _ => "cafe", fun _ => false, fun _ => true,
  fun _ => some ⟨true, "640,480", ""⟩, fun _ => some ⟨true, "120.0", ""⟩,
  fun _ => none, fun _ _ => some ⟨false, true⟩, fun _ _ => some ⟨false, true⟩⟩

/-- Fixture: environment whose duration probe reports `120.01` for the saved
copy at `/save/a.mkv` and `120.00` for everything else. -/
def wEnvDur : Env := ⟨fun _ => "cafe", fun _ => false, fun _ => true,
  fun _ => some ⟨true, "640,480", ""⟩,
  fun p => if p = "/save/a.mkv" then some ⟨true, "120.01", ""⟩
    else some ⟨true, "120.00", ""⟩,
  fun _ => none, fun _ _ => some ⟨true, true⟩, fun _ _ => some ⟨true, true⟩⟩

/-- Fixture: environment whose duration probe reports `140.0` for the saved
copy at `/save/a.mkv` and `120.00` for everything else. -/
def wEnvDurFar : Env := ⟨fun _ => "cafe", fun _ => false, fun _ => true,
  fun _ => some ⟨true, "640,480", ""⟩,
  fun p => if p = "/save/a.mkv" then some ⟨true, "140.0", ""⟩
    else some ⟨true, "120.00", ""⟩,
  fun _ => none, fun _ _ => some ⟨true, true⟩, fun _ _ => some ⟨true, true⟩⟩

/-- Fixture: environment whose geometry probe reports a zero-width stream
for the temporary encode path `/tmp/encoding/cafe.mkv` and a valid geometry
for everything else. -/
def wEnvBadEncode : Env := ⟨fun _ => "cafe", fun _ => false, fun _ => true,
  fun p => if p = "/tmp/encoding/cafe.mkv" then some ⟨true, "0,0", ""⟩
    else some ⟨true, "640,480", ""⟩,
  fun _ => some ⟨true, "120.0", ""⟩,
  fun _ => none, fun _ _ => some ⟨true, true⟩, fun _ _ => some ⟨true, true⟩⟩

theorem toList_append (a b : String) : (a ++ b).toList = a.toList ++ b.toList := by
  cases a
  cases b
  rfl

theorem toList_mk (l : List Char) : (⟨l⟩ : String).toList = l := rfl

theorem mk_toList (s : String) : (⟨s.toList⟩ : String) = s := by
  cases s
  rfl

theorem string_eq_of_toList {a b : String} (h : a.toList = b.toList) : a = b := by
  cases a
  cases b
  exact congrArg String.mk h

theorem toList_pathJoin (d f : String) :
    (pathJoin d f).toList = d.toList ++ '/' :: f.toList := by
  have hs : ("/" : String).toList = ['/'] := by decide
  show ((d ++ "/") ++ f).toList = _
  rw [toList_append, toList_append, hs]
  simp

theorem underDir_pathJoin (d f : String) : underDir d (pathJoin d f) := by
  unfold underDir
  rw [toList_pathJoin]
  exact ⟨f.toList, by simp⟩

theorem ne_of_underDir {dir q p : String} (hq : underDir dir q)
    (hp : ¬ underDir dir p) : q ≠ p :=
  fun h => hp (h ▸ hq)

theorem takeWhile_append_stop {p : Char → Bool} {l₁ : List Char} (c : Char)
    (l₂ : List Char) (h : ∀ x ∈ l₁, p x = true) (hc : p c = false) :
    (l₁ ++ c :: l₂).takeWhile p = l₁ := by
  induction l₁ with
  | nil => simp [List.takeWhile_cons, hc]
  | cons d ds ih =>
    simp only [List.cons_append, List.takeWhile_cons, h d (by simp)]
    rw [ih (fun x hx => h x (by simp [hx]))]
    simp

theorem dropWhile_append_stop {p : Char → Bool} {l₁ : List Char} (c : Char)
    (l₂ : List Char) (h : ∀ x ∈ l₁, p x = true) (hc : p c = false) :
    (l₁ ++ c :: l₂).dropWhile p = c :: l₂ := by
  induction l₁ with
  | nil => simp [List.dropWhile_cons, hc]
  | cons d ds ih =>
    simp only [List.cons_append, List.dropWhile_cons, h d (by simp)]
    simpa using ih (fun x hx => h x (by simp [hx]))

theorem all_ne_slash_of_not_mem {name : String} (h : '/' ∉ name.toList) :
    ∀ x ∈ name.toList.reverse, ((fun c => c != '/') x = true) := fun x hx => by
  simp only [bne_iff_ne, ne_eq, decide_eq_true_eq]
  exact fun hx' => h (hx' ▸ List.mem_reverse.mp hx)

theorem reverse_toList_pathJoin (dir name : String) :
    (pathJoin dir name).toList.reverse =
      name.toList.reverse ++ '/' :: dir.toList.reverse := by
  rw [toList_pathJoin, List.reverse_append, List.reverse_cons, List.append_assoc]
  rfl

theorem lastComp_pathJoin (dir name : String) (h : '/' ∉ name.toList) :
    lastComp (pathJoin dir name) = name := by
  unfold lastComp
  rw [reverse_toList_pathJoin,
    takeWhile_append_stop '/' _ (all_ne_slash_of_not_mem h) (by simp),
    List.reverse_reverse]
  exact mk_toList name

theorem fileNameOf_pathJoin (dir name : String) (h : '/' ∉ name.toList)
    (h0 : name ≠ "") (h1 : name ≠ ".") (h2 : name ≠ "..") :
    fileNameOf (pathJoin dir name) = some name := by
  unfold fileNameOf
  rw [lastComp_pathJoin dir name h]
  simp [h0, h1, h2]

theorem pathWithExtMkv_pathJoin (dir name : String) (h : '/' ∉ name.toList) :
    pathWithExtMkv (pathJoin dir name) = pathJoin dir (withExtMkv name) := by
  unfold pathWithExtMkv
  rw [lastComp_pathJoin dir name h, reverse_toList_pathJoin,
    dropWhile_append_stop '/' _ (all_ne_slash_of_not_mem h) (by simp)]
  apply string_eq_of_toList
  rw [toList_append, toList_mk, toList_pathJoin]
  simp

theorem mem_stemChars {l : List Char} {c : Char} (h : c ∈ stemChars l) : c ∈ l := by
  unfold stemChars at h
  split at h
  · exact h
  · next heq =>
    split at h
    · exact h
    · rw [List.mem_reverse] at h
      have hsub : c ∈ l.reverse.dropWhile (fun c => c != '.') := by
        rw [heq]
        exact List.mem_cons_of_mem _ h
      exact List.mem_reverse.mp ((List.dropWhile_sublist _).subset hsub)

theorem withExtMkv_toList (name : String) :
    (withExtMkv name).toList = stemChars name.toList ++ ['.', 'm', 'k', 'v'] := by
  unfold withExtMkv
  rw [toList_append, toList_mk]
  rfl

theorem slash_not_mem_withExtMkv (name : String) (h : '/' ∉ name.toList) :
    '/' ∉ (withExtMkv name).toList := by
  rw [withExtMkv_toList]
  intro hmem
  rcases List.mem_append.mp hmem with hmem | hmem
  · exact h (mem_stemChars hmem)
  · simp at hmem

theorem withExtMkv_ne_special (name : String) :
    withExtMkv name ≠ "" ∧ withExtMkv name ≠ "." ∧ withExtMkv name ≠ ".." := by
  have hlen : (withExtMkv name).toList.length = (stemChars name.toList).length + 4 := by
    rw [withExtMkv_toList]
    simp
  refine ⟨fun h => ?_, fun h => ?_, fun h => ?_⟩
  · rw [h, show ("" : String).toList.length = 0 from by decide] at hlen
    omega
  · rw [h, show ("." : String).toList.length = 1 from by decide] at hlen
    omega
  · rw [h, show (".." : String).toList.length = 2 from by decide] at hlen
    omega

theorem mem_filter_ne {fs : FS} {p q : String} :
    q ∈ fs.filter (fun x => x != p) ↔ q ∈ fs ∧ q ≠ p := by
  simp [List.mem_filter]

theorem removeFile_eq_none {fs : FS} {p : String} :
    removeFile fs p = none ↔ p ∉ fs := by
  simp [removeFile]

theorem removeFile_mem {fs fs' : FS} {p : String}
    (h : removeFile fs p = some fs') : ∀ q, q ∈ fs' ↔ q ∈ fs ∧ q ≠ p := by
  unfold removeFile at h
  split at h
  · cases h
    exact fun q => mem_filter_ne
  · cases h

theorem moveFile_eq_none {fs : FS} {src dst : String} :
    moveFile fs src dst = none ↔ src ∉ fs := by
  simp [moveFile]

theorem moveFile_mem {fs fs' : FS} {src dst : String}
    (h : moveFile fs src dst = some fs') :
    ∀ q, q ∈ fs' ↔ q = dst ∨ (q ∈ fs ∧ q ≠ src) := by
  unfold moveFile at h
  split at h
  · cases h
    intro q
    rw [List.mem_insert_iff, mem_filter_ne]
  · cases h

theorem renamed_video_filename_ok_events {env : Env} {rc : RenamerConfig}
    {path s : String} {evs : List Event}
    (h : renamed_video_filename env rc path = .ok (s, evs)) :
    evs = [] ∨ evs = [Event.invokedRenamer path] := by
  unfold renamed_video_filename at h
  split at h
  · cases h
  · split at h
    · simp only [Except.ok.injEq, Prod.mk.injEq] at h
      exact Or.inl h.2.symm
    · split at h
      · cases h
      · split at h
        · cases h
        · simp only [] at h
          split at h
          · cases h
          · split at h
            · cases h
            · simp only [Except.ok.injEq, Prod.mk.injEq] at h
              exact Or.inr h.2.symm

theorem destination_filename_ok_events {cfg : Config} {env : Env}
    {path s : String} {evs : List Event}
    (h : destination_filename cfg env path = .ok (s, evs)) :
    evs = [] ∨ evs = [Event.invokedRenamer path] := by
  unfold destination_filename at h
  split at h
  · exact renamed_video_filename_ok_events h
  · split at h
    · cases h
    · simp only [Except.ok.injEq, Prod.mk.injEq] at h
      exact Or.inl h.2.symm

theorem encoded_file_save_path_ok_shape {cfg : Config} {env : Env}
    {p sp : String} {evs : List Event}
    (h : encoded_file_save_path cfg env p = .ok (sp, evs)) :
    (∃ n, sp = pathJoin cfg.save_dir n) ∧
      (evs = [] ∨ ∃ q, evs = [Event.invokedRenamer q]) := by
  unfold encoded_file_save_path at h
  split at h
  · cases h
  · simp only [] at h
    split at h
    · cases h
    · next heq =>
      simp only [Except.ok.injEq, Prod.mk.injEq] at h
      refine ⟨⟨_, h.1.symm⟩, ?_⟩
      rcases destination_filename_ok_events heq with h2 | h2
      · exact Or.inl (h.2 ▸ h2)
      · exact Or.inr ⟨_, h.2 ▸ h2⟩

theorem underDir_save_of_esp {cfg : Config} {env : Env} {p sp : String}
    {evs : List Event}
    (h : encoded_file_save_path cfg env p = .ok (sp, evs)) :
    underDir cfg.save_dir sp := by
  obtain ⟨⟨n, hn⟩, -⟩ := encoded_file_save_path_ok_shape h
  rw [hn]
  exact underDir_pathJoin _ _

theorem renamer_only_append {evs1 evs2 : List Event}
    (h1 : evs1 = [] ∨ ∃ q, evs1 = [Event.invokedRenamer q])
    (h2 : evs2 = [] ∨ ∃ q, evs2 = [Event.invokedRenamer q]) :
    ∀ e ∈ evs1 ++ evs2, ∃ q, e = Event.invokedRenamer q := by
  intro e he
  rcases List.mem_append.mp he with hm | hm <;>
    [rcases h1 with h | ⟨q, h⟩; rcases h2 with h | ⟨q, h⟩] <;> subst h <;>
    simp at hm <;> exact ⟨_, hm⟩

/-- C8: the renamer returns a within-limit filename unchanged without
invoking the external command; otherwise it invokes the command, surfaces a
non-zero exit as `RenamerCommandFailed`, rejects a trimmed output exceeding
the character limit or the byte limit with the corresponding too-long
error, and consequently every successfully returned destination name
satisfies both limits — nothing is silently truncated. -/
theorem c8_renamer_limits (env : Env) (rc : RenamerConfig) (path fn : String)
    (hfn : fileNameOf path = some fn) :
    (fn.length ≤ rc.chars_limit ∧ fn.utf8ByteSize ≤ rc.bytes_limit →
      renamed_video_filename env rc path = .ok (fn, [])) ∧
    (∀ out, env.renamer_output path = some out → out.success = false →
      ¬ (fn.length ≤ rc.chars_limit ∧ fn.utf8ByteSize ≤ rc.bytes_limit) →
      renamed_video_filename env rc path =
        .error (.renamerCommandFailed out.stderr)) ∧
    (∀ out, env.renamer_output path = some out → out.success = true →
      ¬ (fn.length ≤ rc.chars_limit ∧ fn.utf8ByteSize ≤ rc.bytes_limit) →
      (((⟨trimChars out.stdout.toList⟩ : String)).length > rc.chars_limit →
        renamed_video_filename env rc path =
          .error (.tooManyCharsInRenamedFilename ⟨trimChars out.stdout.toList⟩)) ∧
      (((⟨trimChars out.stdout.toList⟩ : String)).length ≤ rc.chars_limit →
        ((⟨trimChars out.stdout.toList⟩ : String)).utf8ByteSize > rc.bytes_limit →
        renamed_video_filename env rc path =
          .error (.tooManyBytesInRenamedFilename ⟨trimChars out.stdout.toList⟩)) ∧
      (((⟨trimChars out.stdout.toList⟩ : String)).length ≤ rc.chars_limit →
        ((⟨trimChars out.stdout.toList⟩ : String)).utf8ByteSize ≤ rc.bytes_limit →
        renamed_video_filename env rc path =
          .ok (⟨trimChars out.stdout.toList⟩, [.invokedRenamer path]))) ∧
    (∀ s evs, renamed_video_filename env rc path = .ok (s, evs) →
      s.length ≤ rc.chars_limit ∧ s.utf8ByteSize ≤ rc.bytes_limit) := by
  refine ⟨?_, ?_, ?_, ?_⟩
  · intro hlim
    unfold renamed_video_filename
    rw [hfn]
    simp only [if_pos hlim]
  · intro out hout hsc hlim
    unfold renamed_video_filename
    rw [hfn]
    simp only [if_neg hlim, hout, hsc]
    rfl
  · intro out hout hsc hlim
    refine ⟨?_, ?_, ?_⟩
    · intro hc
      unfold renamed_video_filename
      rw [hfn]
      simp only [if_neg hlim, hout, hsc, Bool.not_true]
      simp only [if_pos hc]
      rfl
    · intro hc hb
      have hc' : ¬ ((⟨trimChars out.stdout.toList⟩ : String).length >
          rc.chars_limit) := by omega
      unfold renamed_video_filename
      rw [hfn]
      simp only [if_neg hlim, hout, hsc, Bool.not_true]
      rw [if_neg hc', if_pos hb]
      rfl
    · intro hc hb
      have hc' : ¬ ((⟨trimChars out.stdout.toList⟩ : String).length >
          rc.chars_limit) := by omega
      have hb' : ¬ ((⟨trimChars out.stdout.toList⟩ : String).utf8ByteSize >
          rc.bytes_limit) := by omega
      unfold renamed_video_filename
      rw [hfn]
      simp only [if_neg hlim, hout, hsc, Bool.not_true]
      rw [if_neg hc', if_neg hb']
      rfl
  · intro s evs h
    simp only [renamed_video_filename, hfn] at h
    split at h
    · next hlim =>
      simp only [Except.ok.injEq, Prod.mk.injEq] at h
      exact h.1 ▸ hlim
    · split at h
      · cases h
      · split at h
        · cases h
        · split at h
          · cases h
          · split at h
            · cases h
            · next hc hb =>
              simp only [Except.ok.injEq, Prod.mk.injEq] at h
              rw [← h.1]
              omega

/-- C8 witness: with a 10-character limit, the 15-character filename of
`/v/abcdefghijk.mp4` triggers the renamer, and an 8-character renamer
output is accepted. -/
theorem c8_renamer_limits_witness :
    fileNameOf "/v/abcdefghijk.mp4" = some "abcdefghijk.mp4" ∧
    renamed_video_filename wEnvRen8 wRC10 "/v/abcdefghijk.mp4" =
      .ok ("newname8", [.invokedRenamer "/v/abcdefghijk.mp4"]) := by
  have h := c8_renamer_limits wEnvRen8 wRC10 "/v/abcdefghijk.mp4"
    "abcdefghijk.mp4" (by decide)
  have h2 := (h.2.2.1 ⟨true, "newname8", ""⟩ (by decide) (by decide)
    (by decide)).2.2 (by decide) (by decide)
  exact ⟨by decide, by simpa using h2⟩

/-- C4 counterexample: a geometry probe that exits non-zero on the source
file `/v/a.mp4` is not surfaced as a propagated error — `is_valid_video_file`
returns `Ok(false)` and the pipeline records a skip with no error. -/
theorem c4_counterexample :
    is_valid_video_file wEnvProbeFail "/v/a.mp4" = .ok false ∧
    run_all_step wCfg wEnvProbeFail ["/v/a.mp4"] "/v/a.mp4" =
      ⟨["/v/a.mp4"], [.printed .skippingInvalidVideoFile], none⟩ := by decide

/-- C4 (amended): a non-zero exit of the geometry probe on a source file is
not propagated as an error: `is_valid_video_file` returns `false` and the
pipeline skips the file, leaving the file system unchanged and recording no
error. (Launch failures and malformed geometry output are the cases that
propagate `FfprobeCheckValidVideoFailed`.) -/
theorem c4_probe_nonzero_is_skip (cfg : Config) (env : Env) (fs : FS)
    (p sp dn : String) (evs1 evs2 : List Event) (o : ProcOutput)
    (hsp : encoded_file_save_path cfg env p = .ok (sp, evs1))
    (hdn : destination_filename cfg env p = .ok (dn, evs2))
    (hj : env.is_junk p = false) (hg : env.guess_video_file p = true)
    (ho : env.probe_geometry p = some o) (hos : o.success = false) :
    is_valid_video_file env p = .ok false ∧
    run_all_step cfg env fs p =
      ⟨fs, evs1 ++ evs2 ++ [.printed .skippingInvalidVideoFile], none⟩ := by
  have hv : is_valid_video_file env p = .ok false := by
    simp only [is_valid_video_file, ho, hos]
    rfl
  refine ⟨hv, ?_⟩
  unfold run_all_step
  rw [hsp, hdn]
  simp only [hj, hg, hv, Bool.false_eq_true, if_false, Bool.not_true,
    List.append_assoc]

/-- C4 witness: the amended behaviour at the concrete probe-failure
environment. -/
theorem c4_witness :
    encoded_file_save_path wCfg wEnvProbeFail "/v/a.mp4" =
      .ok ("/save/a.mkv", []) ∧
    run_all_step wCfg wEnvProbeFail ["/v/a.mp4"] "/v/a.mp4" =
      ⟨["/v/a.mp4"], [] ++ [] ++ [.printed .skippingInvalidVideoFile], none⟩ :=
  ⟨by decide,
    (c4_probe_nonzero_is_skip wCfg wEnvProbeFail ["/v/a.mp4"] "/v/a.mp4"
      "/save/a.mkv" "a.mp4" [] [] ⟨false, "", ""⟩ (by decide) (by decide)
      (by decide) (by decide) (by decide) (by decide)).2⟩

/-- C5 counterexample: a duration probe output of `-5` parses successfully
and `rough_video_secs` returns the negative value instead of failing with a
duration-parse error. -/
theorem c5_counterexample :
    rough_video_secs wEnvNegDur "/v/a.mp4" = .ok ⟨-5, 1⟩ ∧
    (⟨-5, 1⟩ : Frac).num < 0 := by decide

/-- C5 (amended): the duration query fails with `ParseDurationSecondsFailed`
exactly when the trimmed probe output does not parse as a decimal number;
any parsed value is returned as-is, and in particular every string of digits
with a leading minus sign parses to the corresponding negative value. -/
theorem c5_duration_parse (env : Env) (p : String) (o : ProcOutput)
    (ho : env.probe_duration p = some o) :
    (parseF64 ⟨trimChars o.stdout.toList⟩ = none →
      rough_video_secs env p =
        .error (.parseDurationSecondsFailed ⟨trimChars o.stdout.toList⟩)) ∧
    (∀ v, parseF64 ⟨trimChars o.stdout.toList⟩ = some v →
      rough_video_secs env p = .ok v) ∧
    (∀ ds : List Char, ds ≠ [] → (∀ c ∈ ds, c.isDigit = true) →
      parseF64 ⟨'-' :: ds⟩ = some ⟨-(digitsVal ds : Int), 1⟩) := by
  refine ⟨?_, ?_, ?_⟩
  · intro hp
    unfold rough_video_secs
    rw [ho]
    simp only [hp]
  · intro v hp
    unfold rough_video_secs
    rw [ho]
    simp only [hp]
  · intro ds hne hdig
    have htw : ds.takeWhile Char.isDigit = ds := List.takeWhile_eq_self_iff.mpr hdig
    unfold parseF64
    simp only [toList_mk, htw, List.drop_length, if_neg hne, neg_mul, one_mul]

/-- C5 witness: the amended characterization at a concrete probe output. -/
theorem c5_witness :
    wEnvOk.probe_duration "/v/a.mp4" = some ⟨true, "120.0", ""⟩ ∧
    rough_video_secs wEnvOk "/v/a.mp4" = .ok ⟨1200, 10⟩ ∧
    parseF64 ⟨'-' :: ['5']⟩ = some ⟨-5, 1⟩ := by
  have h := c5_duration_parse wEnvOk "/v/a.mp4" ⟨true, "120.0", ""⟩ (by decide)
  refine ⟨by decide, h.2.1 ⟨1200, 10⟩ (by decide), ?_⟩
  have h3 := h.2.2 ['5'] (by decide) (by decide)
  rw [h3]
  decide

/-- C7 counterexample: for the source filename `.hidden` the code derives
the destination filename `.hidden.mkv` (Rust `with_extension` treats a name
whose only dot is leading as extensionless), while the claimed rule — split
off the last dot-delimited segment unconditionally — would give `.mkv`. -/
theorem c7_counterexample :
    encoded_file_save_path wCfg wEnvOk "/v/.hidden" =
      .ok ("/save/.hidden.mkv", []) ∧
    pathJoin "/save" (specSplitDestination ".hidden") = "/save/.mkv" ∧
    ("/save/.hidden.mkv" : String) ≠ "/save/.mkv" := by decide

theorem dropWhile_head_false (p : Char → Bool) :
    ∀ {l : List Char} {c : Char} {cs : List Char},
      l.dropWhile p = c :: cs → p c = false := by
  intro l
  induction l with
  | nil =>
    intro c cs h
    cases h
  | cons d ds ih =>
    intro c cs h
    rw [List.dropWhile_cons] at h
    split at h
    · exact ih h
    · next hpd =>
      cases h
      exact Bool.eq_false_iff.mpr hpd

theorem stemChars_no_dot {l : List Char} (h : '.' ∉ l) : stemChars l = l := by
  have hall : ∀ x ∈ l.reverse, ((fun c => c != '.') x = true) := by
    intro x hx
    simp only [bne_iff_ne, ne_eq, decide_eq_true_eq]
    intro hx'
    exact h (hx' ▸ List.mem_reverse.mp hx)
  unfold stemChars
  rw [List.dropWhile_eq_nil_iff.mpr hall]

theorem stemChars_dot {l : List Char} {c : Char} {pre : List Char}
    (hd : l.reverse.dropWhile (fun c => c != '.') = c :: pre)
    (hpre : pre ≠ []) : stemChars l = pre.reverse := by
  unfold stemChars
  rw [hd]
  simp [hpre]

theorem dot_mem_of_dropWhile_cons {l : List Char} {c : Char} {pre : List Char}
    (hd : l.reverse.dropWhile (fun c => c != '.') = c :: pre) : '.' ∈ l := by
  have hmem : '.' ∈ l.reverse.dropWhile (fun c => c != '.') := by
    have hc := dropWhile_head_false (fun c => c != '.') hd
    have hceq : c = '.' := by simpa using hc
    rw [hd, hceq]
    simp
  exact List.mem_reverse.mp ((List.dropWhile_sublist _).subset hmem)

theorem specSplitDestination_no_dot {name : String} (h : '.' ∉ name.toList) :
    specSplitDestination name = name ++ ".mkv" := by
  unfold specSplitDestination
  rw [if_neg (by simpa using h)]

theorem specSplitDestination_dot {name : String} {c : Char} {pre : List Char}
    (hd : name.toList.reverse.dropWhile (fun c => c != '.') = c :: pre) :
    specSplitDestination name = (⟨pre.reverse⟩ : String) ++ ".mkv" := by
  unfold specSplitDestination
  rw [if_pos (by simpa using dot_mem_of_dropWhile_cons hd), hd]
  rfl

theorem withExtMkv_eq_spec {name : String}
    (hstem : ('.' ∉ name.toList) ∨
      (name.toList.reverse.dropWhile (fun c => c != '.')).tail ≠ []) :
    withExtMkv name = specSplitDestination name := by
  rcases hstem with h | h
  · rw [withExtMkv, stemChars_no_dot h, mk_toList, specSplitDestination_no_dot h]
  · cases hd : name.toList.reverse.dropWhile (fun c => c != '.') with
    | nil =>
      rw [hd] at h
      simp at h
    | cons c pre =>
      rw [hd] at h
      simp only [List.tail_cons] at h
      rw [withExtMkv, stemChars_dot hd h, specSplitDestination_dot hd]

/-- C7 (amended): for every source filename whose portion before its last
dot is nonempty (and for every dotless filename), the derived destination
path splits off exactly the last dot-delimited segment — everything before
it is kept as the stem even if it contains dots — and appends the fixed
`.mkv` extension; the exception (forced by the counterexample) is a
filename like `.hidden`, whose only dot is leading: there the code keeps
the whole name and appends `.mkv`. In particular `a.b.c.mkv` keeps the
stem `a.b.c` and is saved as `a.b.c.mkv`. -/
theorem c7_split_last_extension (cfg : Config) (env : Env) (dir name : String)
    (hren : cfg.renamer = none)
    (h0 : name ≠ "") (h1 : name ≠ ".") (h2 : name ≠ "..")
    (hsl : '/' ∉ name.toList)
    (hstem : ('.' ∉ name.toList) ∨
      (name.toList.reverse.dropWhile (fun c => c != '.')).tail ≠ []) :
    encoded_file_save_path cfg env (pathJoin dir name) =
      .ok (pathJoin cfg.save_dir (specSplitDestination name), []) := by
  have hfn : fileNameOf (pathJoin dir name) = some name :=
    fileNameOf_pathJoin dir name hsl h0 h1 h2
  have hwe : pathWithExtMkv (pathJoin cfg.save_dir name) =
      pathJoin cfg.save_dir (withExtMkv name) := pathWithExtMkv_pathJoin _ _ hsl
  have hup : '/' ∉ (withExtMkv name).toList := slash_not_mem_withExtMkv name hsl
  obtain ⟨hne0, hne1, hne2⟩ := withExtMkv_ne_special name
  have hfn2 : fileNameOf (pathJoin cfg.save_dir (withExtMkv name)) =
      some (withExtMkv name) := fileNameOf_pathJoin _ _ hup hne0 hne1 hne2
  simp only [encoded_file_save_path, hfn, hwe, destination_filename, hren, hfn2]
  rw [withExtMkv_eq_spec hstem]

theorem run_all_cons (cfg : Config) (env : Env) (p : String)
    (rest : List String) (fs : FS) :
    run_all cfg env (p :: rest) fs =
      (match (run_all_step cfg env fs p).err with
       | some e =>
         ⟨(run_all_step cfg env fs p).fs, (run_all_step cfg env fs p).events,
           some e⟩
       | none =>
         ⟨(run_all cfg env rest (run_all_step cfg env fs p).fs).fs,
           (run_all_step cfg env fs p).events ++
             (run_all cfg env rest (run_all_step cfg env fs p).fs).events,
           (run_all cfg env rest (run_all_step cfg env fs p).fs).err⟩) := rfl

theorem run_all_cons_err {cfg : Config} {env : Env} {p : String}
    {rest : List String} {fs : FS}
    (h : (run_all_step cfg env fs p).err = none) :
    (run_all cfg env (p :: rest) fs).err =
      (run_all cfg env rest (run_all_step cfg env fs p).fs).err := by
  rw [run_all_cons, h]

theorem run_all_step_past_checks (cfg : Config) (env : Env) (fs : FS)
    (p sp dn : String) (evs1 evs2 : List Event)
    (hsp : encoded_file_save_path cfg env p = .ok (sp, evs1))
    (hdn : destination_filename cfg env p = .ok (dn, evs2))
    (hj : env.is_junk p = false) (hg : env.guess_video_file p = true)
    (hv : is_valid_video_file env p = .ok true)
    (hsave : sp ∉ fs)
    (hfc : ¬ (cfg.move_failed_files = true ∧ pathJoin cfg.save_dir dn ∈ fs))
    (henc : encodingPathOf cfg env p ∉ fs) :
    run_all_step cfg env fs p =
      run_all_encode cfg env fs p (encodingPathOf cfg env p) sp
        (pathJoin cfg.save_dir dn) (evs1 ++ evs2) := by
  unfold run_all_step
  rw [hsp, hdn]
  simp only [hj, hg, hv, Bool.not_true, Bool.false_eq_true, if_false]
  rw [if_neg hsave, if_neg hfc, if_neg henc]

/-- C1: once a file reaches the conflict-check stage (paths derived, not
junk, plausible and valid video, save path absent, failed-copy check
passed), a pre-existing hash-named temporary encode path aborts the whole
run with `ConflictVideoEncoding`: the file system is unchanged, the only
possible events are the renamer invocations of path derivation (no encoder
invocation, no write), and no further file is processed. -/
theorem c1_conflict_aborts (cfg : Config) (env : Env) (fs : FS)
    (p sp dn : String) (evs1 evs2 : List Event) (rest : List String)
    (hsp : encoded_file_save_path cfg env p = .ok (sp, evs1))
    (hdn : destination_filename cfg env p = .ok (dn, evs2))
    (hj : env.is_junk p = false) (hg : env.guess_video_file p = true)
    (hv : is_valid_video_file env p = .ok true)
    (hsave : sp ∉ fs)
    (hfc : ¬ (cfg.move_failed_files = true ∧ pathJoin cfg.save_dir dn ∈ fs))
    (henc : encodingPathOf cfg env p ∈ fs) :
    run_all cfg env (p :: rest) fs =
      ⟨fs, evs1 ++ evs2,
        some (.conflictVideoEncoding p (encodingPathOf cfg env p))⟩ ∧
    (∀ e ∈ evs1 ++ evs2, ∃ q, e = Event.invokedRenamer q) := by
  have hstep : run_all_step cfg env fs p =
      ⟨fs, evs1 ++ evs2,
        some (.conflictVideoEncoding p (encodingPathOf cfg env p))⟩ := by
    unfold run_all_step
    rw [hsp, hdn]
    simp only [hj, hg, hv, Bool.not_true, Bool.false_eq_true, if_false]
    rw [if_neg hsave, if_neg hfc, if_pos henc]
  constructor
  · rw [run_all_cons, hstep]
  · exact renamer_only_append (encoded_file_save_path_ok_shape hsp).2
      ((destination_filename_ok_events hdn).imp id (fun h => ⟨_, h⟩))

/-- C1 witness: a pre-existing temporary encode file for `/v/a.mp4` aborts
the run, leaving the file system untouched and producing no events. -/
theorem c1_witness :
    encoded_file_save_path wCfg wEnvOk "/v/a.mp4" = .ok ("/save/a.mkv", []) ∧
    run_all wCfg wEnvOk ["/v/a.mp4"] ["/v/a.mp4", "/tmp/encoding/cafe.mkv"] =
      ⟨["/v/a.mp4", "/tmp/encoding/cafe.mkv"], [],
        some (.conflictVideoEncoding "/v/a.mp4"
          (encodingPathOf wCfg wEnvOk "/v/a.mp4"))⟩ := by
  refine ⟨by decide, ?_⟩
  have h := (c1_conflict_aborts wCfg wEnvOk
    ["/v/a.mp4", "/tmp/encoding/cafe.mkv"] "/v/a.mp4" "/save/a.mkv" "a.mp4"
    [] [] [] (by decide) (by decide) (by decide) (by decide) (by decide)
    (by decide) (by decide) (by decide)).1
  simpa using h

/-- C2 counterexample: with `move_failed_files = true`, an encoder failure
relocates the original into the save directory (at the failed-copy path),
so the save directory does not remain unchanged as the claim as a whole
asserts. -/
theorem c2_counterexample :
    (run_all_step wCfgMove wEnvFail ["/v/a.mp4"] "/v/a.mp4").err = none ∧
    "/save/a.mp4" ∈ (run_all_step wCfgMove wEnvFail ["/v/a.mp4"] "/v/a.mp4").fs ∧
    underDir "/save" "/save/a.mp4" ∧
    ("/save/a.mp4" : String) ∉ (["/v/a.mp4"] : FS) := by decide

/-- C2 (amended): a non-zero encoder exit is a recoverable per-file
failure: the run does not abort (processing continues with the next file),
any partial file at the temporary encode path is deleted, and the original
is relocated to the failed-copy path exactly when `move_failed_files` is
set — note the failed-copy path lies inside the save directory, so in that
case the save directory gains exactly the failed copy; with
`move_failed_files` unset the file system (and hence the save directory)
is left entirely unchanged. -/
theorem c2_encoder_failure_recoverable (cfg : Config) (env : Env) (fs : FS)
    (p sp dn : String) (evs1 evs2 : List Event) (res : EncResult)
    (rest : List String)
    (hsp : encoded_file_save_path cfg env p = .ok (sp, evs1))
    (hdn : destination_filename cfg env p = .ok (dn, evs2))
    (hj : env.is_junk p = false) (hg : env.guess_video_file p = true)
    (hv : is_valid_video_file env p = .ok true)
    (hsave : sp ∉ fs)
    (hfc : ¬ (cfg.move_failed_files = true ∧ pathJoin cfg.save_dir dn ∈ fs))
    (henc : encodingPathOf cfg env p ∉ fs)
    (hdisj : ¬ underDir cfg.save_dir (encodingPathOf cfg env p))
    (hres : env.encoder_result p (encodingPathOf cfg env p) = some res)
    (hfail : res.success = false)
    (hp : p ∈ fs) :
    (run_all_step cfg env fs p).err = none ∧
    encodingPathOf cfg env p ∉ (run_all_step cfg env fs p).fs ∧
    (cfg.move_failed_files = false → (run_all_step cfg env fs p).fs = fs) ∧
    (cfg.move_failed_files = true →
      ∀ q, q ∈ (run_all_step cfg env fs p).fs ↔
        q = pathJoin cfg.save_dir dn ∨ (q ∈ fs ∧ q ≠ p)) ∧
    (run_all cfg env (p :: rest) fs).err =
      (run_all cfg env rest (run_all_step cfg env fs p).fs).err := by
  have hpast := run_all_step_past_checks cfg env fs p sp dn evs1 evs2
    hsp hdn hj hg hv hsave hfc henc
  have hfilter : fs.filter (fun q => q != encodingPathOf cfg env p) = fs :=
    List.filter_eq_self.mpr (fun a ha => by
      simp only [bne_iff_ne, ne_eq, decide_eq_true_eq]
      exact fun h => henc (h ▸ ha))
  have hmove : moveFile fs p (pathJoin cfg.save_dir dn) =
      some ((fs.filter (fun q => q != p)).insert (pathJoin cfg.save_dir dn)) := by
    unfold moveFile
    rw [if_pos hp]
  have hfc' : pathJoin cfg.save_dir dn ≠ encodingPathOf cfg env p :=
    ne_of_underDir (underDir_pathJoin _ _) hdisj
  have hfc2 : encodingPathOf cfg env p ≠ pathJoin cfg.save_dir dn :=
    Ne.symm hfc'
  have hmain : (run_all_step cfg env fs p).err = none ∧
      encodingPathOf cfg env p ∉ (run_all_step cfg env fs p).fs ∧
      (cfg.move_failed_files = false → (run_all_step cfg env fs p).fs = fs) ∧
      (cfg.move_failed_files = true →
        ∀ q, q ∈ (run_all_step cfg env fs p).fs ↔
          q = pathJoin cfg.save_dir dn ∨ (q ∈ fs ∧ q ≠ p)) := by
    refine ⟨?_, ?_, ?_, ?_⟩ <;>
      (rw [hpast]; unfold run_all_encode; rw [hres];
       cases hw : res.wrote_output <;> cases hmv : cfg.move_failed_files <;>
        simp [hfail, hw, hmv, hmove, henc, hfilter, hfc2,
          List.mem_insert_iff, mem_filter_ne, List.insert_of_not_mem henc])
  exact ⟨hmain.1, hmain.2.1, hmain.2.2.1, hmain.2.2.2,
    run_all_cons_err hmain.1⟩

/-- C2 witness: the amended failure behaviour at a concrete failing
encoder with `move_failed_files` set. -/
theorem c2_witness :
    (run_all_step wCfgMove wEnvFail ["/v/a.mp4"] "/v/a.mp4").err = none ∧
    encodingPathOf wCfgMove wEnvFail "/v/a.mp4" ∉
      (run_all_step wCfgMove wEnvFail ["/v/a.mp4"] "/v/a.mp4").fs ∧
    ("/save/a.mp4" ∈ (run_all_step wCfgMove wEnvFail ["/v/a.mp4"] "/v/a.mp4").fs ↔
      "/save/a.mp4" = pathJoin wCfgMove.save_dir "a.mp4" ∨
        ("/save/a.mp4" ∈ (["/v/a.mp4"] : FS) ∧ "/save/a.mp4" ≠ "/v/a.mp4")) := by
  have h := c2_encoder_failure_recoverable wCfgMove wEnvFail ["/v/a.mp4"]
    "/v/a.mp4" "/save/a.mkv" "a.mp4" [] [] ⟨false, true⟩ []
    (by decide) (by decide) (by decide) (by decide) (by decide) (by decide)
    (by decide) (by decide) (by decide) (by decide) (by decide) (by decide)
  exact ⟨h.1, h.2.1, h.2.2.2.1 (by decide) "/save/a.mp4"⟩

theorem renamer_only {evs : List Event}
    (h : evs = [] ∨ ∃ q, evs = [Event.invokedRenamer q]) :
    ∀ e ∈ evs, ∃ q, e = Event.invokedRenamer q := by
  rcases h with h | ⟨q, h⟩ <;> subst h <;> intro e he <;> simp at he <;>
    exact ⟨_, he⟩

/-- C6: when the derived save path already exists: with
`delete_almost_same_files` enabled, an existing destination that fails
media validation aborts the entire run with
`FoundInvalidVideoFileInSavedPath`; a valid destination leads to deleting
the source exactly when the two probed durations match within the ≈1%
relative tolerance, while a mismatch leaves both files untouched and emits
a notice; with the policy disabled the file is simply skipped with no
change to disk. -/
theorem c6_near_duplicate_policy (cfg : Config) (env : Env) (fs : FS)
    (p sp dn : String) (evs1 evs2 : List Event)
    (hsp : encoded_file_save_path cfg env p = .ok (sp, evs1))
    (hdn : destination_filename cfg env p = .ok (dn, evs2))
    (hj : env.is_junk p = false) (hg : env.guess_video_file p = true)
    (hv : is_valid_video_file env p = .ok true)
    (hsave : sp ∈ fs) :
    (cfg.delete_almost_same_files = false →
      run_all_step cfg env fs p =
        ⟨fs, evs1 ++ evs2 ++ [.printed .skippingAlreadyExists], none⟩) ∧
    (cfg.delete_almost_same_files = true →
      (is_valid_video_file env sp = .ok false →
        run_all_step cfg env fs p =
          ⟨fs, evs1 ++ evs2, some (.foundInvalidVideoFileInSavedPath sp)⟩) ∧
      (∀ d1 d2, is_valid_video_file env sp = .ok true →
        rough_video_secs env sp = .ok d1 → rough_video_secs env p = .ok d2 →
        (almost_eq d1 d2 ⟨1, 100⟩ = true → p ∈ fs →
          run_all_step cfg env fs p =
            ⟨fs.filter (fun q => q != p),
              evs1 ++ evs2 ++ [.printed .removingAlmostSameDurationFile,
                .removedFile p], none⟩) ∧
        (almost_eq d1 d2 ⟨1, 100⟩ = false →
          run_all_step cfg env fs p =
            ⟨fs, evs1 ++ evs2 ++ [.printed .skippingDifferentDurations],
              none⟩))) := by
  have hrm : p ∈ fs → removeFile fs p = some (fs.filter (fun q => q != p)) := by
    intro hp
    unfold removeFile
    rw [if_pos hp]
  refine ⟨fun hda => ?_, fun hda => ⟨fun hvs => ?_,
    fun d1 d2 hvs hd1 hd2 => ⟨fun halm hp => ?_, fun halm => ?_⟩⟩⟩ <;>
    (unfold run_all_step; rw [hsp, hdn];
     simp only [hj, hg, hv, Bool.not_true, Bool.false_eq_true, if_false];
     rw [if_pos hsave])
  · simp [hda]
  · simp [hda, hvs]
  · simp [hda, hvs, hd1, hd2, halm, hrm hp]
  · simp [hda, hvs, hd1, hd2, halm]

/-- C6 witness: with durations 120.01 (saved) and 120.00 (source) and the
policy enabled, the source is deleted. -/
theorem c6_witness :
    almost_eq ⟨12001, 100⟩ ⟨12000, 100⟩ ⟨1, 100⟩ = true ∧
    run_all_step wCfgDel wEnvDur ["/save/a.mkv", "/v/a.mp4"] "/v/a.mp4" =
      ⟨(["/save/a.mkv", "/v/a.mp4"] : FS).filter (fun q => q != "/v/a.mp4"),
        [] ++ [] ++ [.printed .removingAlmostSameDurationFile,
          .removedFile "/v/a.mp4"], none⟩ := by
  have h := c6_near_duplicate_policy wCfgDel wEnvDur
    ["/save/a.mkv", "/v/a.mp4"] "/v/a.mp4" "/save/a.mkv" "a.mp4" [] []
    (by decide) (by decide) (by decide) (by decide) (by decide) (by decide)
  exact ⟨by decide, ((h.2 (by decide)).2 ⟨12001, 100⟩ ⟨12000, 100⟩ (by decide)
    (by decide) (by decide)).1 (by decide) (by decide)⟩

/-- C9 counterexample: path derivation — including the renamer — runs
before the junk check, so a junk file with an over-limit name aborts the
run with a renamer error and is not deleted. -/
theorem c9_counterexample :
    wEnvJunkRen.is_junk "/v/longname.mp4" = true ∧
    run_all_step wCfgRen wEnvJunkRen ["/v/longname.mp4"] "/v/longname.mp4" =
      ⟨["/v/longname.mp4"], [],
        some (.tooManyCharsInRenamedFilename "stilltoolong")⟩ := by decide

/-- C9 (amended): the derived paths — including any renamer invocations —
are computed before the junk and non-video checks, so a junk or non-video
file can trigger renamer invocations and path-derivation errors, and a
derivation error aborts the run before the junk file is deleted. When
derivation succeeds, a junk file is deleted (the only write) and a
non-video file is skipped with no write; neither reaches the encoder. -/
theorem c9_checks_after_derivation (cfg : Config) (env : Env) (fs : FS)
    (p : String) :
    (∀ e, encoded_file_save_path cfg env p = .error e →
      run_all_step cfg env fs p = ⟨fs, [], some e⟩) ∧
    (∀ sp dn evs1 evs2, encoded_file_save_path cfg env p = .ok (sp, evs1) →
      destination_filename cfg env p = .ok (dn, evs2) →
      (env.is_junk p = true → p ∈ fs →
        run_all_step cfg env fs p =
          ⟨fs.filter (fun q => q != p),
            evs1 ++ evs2 ++ [.printed .removingJunkFile, .removedFile p],
            none⟩) ∧
      (env.is_junk p = false → env.guess_video_file p = false →
        run_all_step cfg env fs p =
          ⟨fs, evs1 ++ evs2 ++ [.printed .skippingNonVideoFile], none⟩)) := by
  constructor
  · intro e he
    unfold run_all_step
    rw [he]
  · intro sp dn evs1 evs2 hsp hdn
    constructor
    · intro hjk hp
      have hrm : removeFile fs p = some (fs.filter (fun q => q != p)) := by
        unfold removeFile
        rw [if_pos hp]
      unfold run_all_step
      rw [hsp, hdn]
      simp [hjk, hrm]
    · intro hjk hgv
      unfold run_all_step
      rw [hsp, hdn]
      simp [hjk, hgv]

/-- C9 witness: the amended ordering at concrete inputs — a junk file whose
renamer-derived name is over-limit aborts with the derivation error, while
a junk file with successful derivation is deleted. -/
theorem c9_witness :
    run_all_step wCfgRen wEnvJunkRen ["/v/longname.mp4"] "/v/longname.mp4" =
      ⟨["/v/longname.mp4"], [],
        some (.tooManyCharsInRenamedFilename "stilltoolong")⟩ ∧
    run_all_step wCfg wEnvJunkRen ["/v/a.mp4"] "/v/a.mp4" =
      ⟨(["/v/a.mp4"] : FS).filter (fun q => q != "/v/a.mp4"),
        [] ++ [] ++ [.printed .removingJunkFile, .removedFile "/v/a.mp4"],
        none⟩ := by
  have h := c9_checks_after_derivation wCfgRen wEnvJunkRen
    ["/v/longname.mp4"] "/v/longname.mp4"
  have h2 := c9_checks_after_derivation wCfg wEnvJunkRen
    ["/v/a.mp4"] "/v/a.mp4"
  exact ⟨h.1 _ (by decide),
    (h2.2 "/save/a.mkv" "a.mp4" [] [] (by decide) (by decide)).1 (by decide)
      (by decide)⟩

/-- C10: the single-file fixed-quality command errors (rather than skips)
on an already-existing save path, and errors on an existing temporary
encode path, both before invoking the encoder (the file system is
unchanged and the only possible events are renamer invocations); when the
encoder succeeds but the produced file fails media validation, the
temporary file is deleted and `SingleEncodeFailedWithInvalidEncodedFile`
is returned. -/
theorem c10_force_crf_single (cfg : Config) (env : Env) (fs : FS)
    (p sp : String) (evs : List Event)
    (hsp : encoded_file_save_path cfg env p = .ok (sp, evs)) :
    (sp ∈ fs →
      run_force_crf_single cfg env fs p =
        ⟨fs, evs, some (.singleEncodeSavePathAlreadyExists sp)⟩ ∧
      (∀ e ∈ evs, ∃ q, e = Event.invokedRenamer q)) ∧
    (sp ∉ fs → encodingPathOf cfg env p ∈ fs →
      run_force_crf_single cfg env fs p =
        ⟨fs, evs, some (.conflictVideoEncoding p (encodingPathOf cfg env p))⟩ ∧
      (∀ e ∈ evs, ∃ q, e = Event.invokedRenamer q)) ∧
    (∀ res, sp ∉ fs → encodingPathOf cfg env p ∉ fs →
      env.force_crf_result p (encodingPathOf cfg env p) = some res →
      res.success = true → res.wrote_output = true →
      is_valid_video_file env (encodingPathOf cfg env p) = .ok false →
      (run_force_crf_single cfg env fs p).err =
        some (.singleEncodeFailedWithInvalidEncodedFile p
          (encodingPathOf cfg env p)) ∧
      encodingPathOf cfg env p ∉ (run_force_crf_single cfg env fs p).fs ∧
      (∀ q, q ≠ encodingPathOf cfg env p →
        (q ∈ (run_force_crf_single cfg env fs p).fs ↔ q ∈ fs))) := by
  have hro := renamer_only (encoded_file_save_path_ok_shape hsp).2
  refine ⟨fun hin => ⟨?_, hro⟩, fun hout hin => ⟨?_, hro⟩,
    fun res hout henc hres hsc hw hval => ?_⟩
  · unfold run_force_crf_single
    rw [hsp]
    simp only []
    rw [if_pos hin]
  · unfold run_force_crf_single
    rw [hsp]
    simp only []
    rw [if_neg hout, if_pos hin]
  · refine ⟨?_, ?_, ?_⟩ <;>
      (unfold run_force_crf_single; rw [hsp]; simp only [];
       rw [if_neg hout, if_neg henc, hres];
       simp [hsc, hw, List.insert_of_not_mem henc, hval, mem_filter_ne,
         List.mem_cons])
    exact fun q hq _ => hq

/-- C10 witness: the three error behaviours of the single-file command at
concrete inputs. -/
theorem c10_witness :
    encoded_file_save_path wCfg wEnvBadEncode "/v/a.mp4" =
      .ok ("/save/a.mkv", []) ∧
    run_force_crf_single wCfg wEnvBadEncode ["/save/a.mkv", "/v/a.mp4"]
        "/v/a.mp4" =
      ⟨["/save/a.mkv", "/v/a.mp4"], [],
        some (.singleEncodeSavePathAlreadyExists "/save/a.mkv")⟩ ∧
    (run_force_crf_single wCfg wEnvBadEncode ["/v/a.mp4"] "/v/a.mp4").err =
      some (.singleEncodeFailedWithInvalidEncodedFile "/v/a.mp4"
        (encodingPathOf wCfg wEnvBadEncode "/v/a.mp4")) := by
  have h := c10_force_crf_single wCfg wEnvBadEncode
    ["/save/a.mkv", "/v/a.mp4"] "/v/a.mp4" "/save/a.mkv" [] (by decide)
  have h2 := c10_force_crf_single wCfg wEnvBadEncode ["/v/a.mp4"]
    "/v/a.mp4" "/save/a.mkv" [] (by decide)
  exact ⟨by decide, (h.1 (by decide)).1,
    (h2.2.2 ⟨true, true⟩ (by decide) (by decide) (by decide) (by decide)
      (by decide) (by decide)).1⟩

/-- C7 witness: the amended split rule at `a.b.c.mkv`: the derived stem is
`a.b.c` and the destination filename is `a.b.c.mkv`. -/
theorem c7_witness :
    encoded_file_save_path wCfg wEnvOk (pathJoin "/v" "a.b.c.mkv") =
      .ok (pathJoin "/save" (specSplitDestination "a.b.c.mkv"), []) ∧
    specSplitDestination "a.b.c.mkv" = "a.b.c.mkv" ∧
    (⟨((("a.b.c.mkv" : String).toList.reverse.dropWhile
        (fun c => c != '.')).tail).reverse⟩ : String) = "a.b.c" := by
  refine ⟨?_, by decide, by decide⟩
  exact c7_split_last_extension wCfg wEnvOk "/v" "a.b.c.mkv" (by decide)
    (by decide) (by decide) (by decide) (by decide) (by decide)


theorem run_all_save_mono (cfg : Config) (fs : FS) (evs : List Event)
    (video enc sp : String) (q : String)
    (hq1 : q ≠ enc) (hq2 : q ≠ video) (hmem : q ∈ fs) :
    q ∈ (run_all_save cfg fs evs video enc sp).fs := by
  unfold run_all_save
  split
  · exact hmem
  · next fs1 hmv =>
    have h1 : q ∈ fs1 := (moveFile_mem hmv q).mpr (Or.inr ⟨hmem, hq1⟩)
    split
    · split
      · exact h1
      · next fs2 hrm => exact (removeFile_mem hrm q).mpr ⟨h1, hq2⟩
    · exact h1

theorem run_all_encode_mono (cfg : Config) (env : Env) (fs : FS)
    (video enc sp fc : String) (evs : List Event) (q : String)
    (hq1 : q ≠ enc) (hq2 : q ≠ video) (hmem : q ∈ fs) :
    q ∈ (run_all_encode cfg env fs video enc sp fc evs).fs := by
  cases heq : env.encoder_result video enc with
  | none =>
    simp only [run_all_encode, heq]
    exact hmem
  | some res =>
    have hins : enc ∈ fs.insert enc := List.mem_insert_self _ _
    have h1 : q ∈ fs.insert enc := List.mem_insert_iff.mpr (Or.inr hmem)
    cases hw : res.wrote_output with
    | false =>
      cases hs : res.success with
      | true =>
        simp only [run_all_encode, heq, hw, hs, Bool.false_eq_true, if_false,
          if_true]
        by_cases hin : enc ∈ fs
        · simp only [if_pos hin]
          cases hval : is_valid_video_file env enc with
          | error e =>
            simp only [hval]
            exact hmem
          | ok b =>
            cases b
            · simp only [hval]
              exact mem_filter_ne.mpr ⟨hmem, hq1⟩
            · simp only [hval]
              exact run_all_save_mono _ _ _ _ _ _ _ hq1 hq2 hmem
        · simp only [if_neg hin]
          exact run_all_save_mono _ _ _ _ _ _ _ hq1 hq2 hmem
      | false =>
        simp only [run_all_encode, heq, hw, hs, Bool.false_eq_true, if_false]
        by_cases hin : enc ∈ fs
        · simp only [if_pos hin]
          split
          · split
            · exact mem_filter_ne.mpr ⟨hmem, hq1⟩
            · next fs3 hmv =>
              exact (moveFile_mem hmv q).mpr
                (Or.inr ⟨mem_filter_ne.mpr ⟨hmem, hq1⟩, hq2⟩)
          · exact mem_filter_ne.mpr ⟨hmem, hq1⟩
        · simp only [if_neg hin]
          split
          · split
            · exact hmem
            · next fs3 hmv =>
              exact (moveFile_mem hmv q).mpr (Or.inr ⟨hmem, hq2⟩)
          · exact hmem
    | true =>
      cases hs : res.success with
      | true =>
        simp only [run_all_encode, heq, hw, hs, if_true, if_pos hins]
        cases hval : is_valid_video_file env enc with
        | error e =>
          simp only [hval]
          exact h1
        | ok b =>
          cases b
          · simp only [hval]
            exact mem_filter_ne.mpr ⟨h1, hq1⟩
          · simp only [hval]
            exact run_all_save_mono _ _ _ _ _ _ _ hq1 hq2 h1
      | false =>
        simp only [run_all_encode, heq, hw, hs, Bool.false_eq_true, if_false,
          if_true, if_pos hins]
        split
        · split
          · exact mem_filter_ne.mpr ⟨h1, hq1⟩
          · next fs3 hmv =>
            exact (moveFile_mem hmv q).mpr
              (Or.inr ⟨mem_filter_ne.mpr ⟨h1, hq1⟩, hq2⟩)
        · exact mem_filter_ne.mpr ⟨h1, hq1⟩

theorem run_all_step_save_mono (cfg : Config) (env : Env) (fs : FS)
    (p : String) (hp : ¬ underDir cfg.save_dir p)
    (hep : ¬ underDir cfg.save_dir (encodingPathOf cfg env p))
    (q : String) (hq : underDir cfg.save_dir q) (hmem : q ∈ fs) :
    q ∈ (run_all_step cfg env fs p).fs := by
  have hq1 : q ≠ encodingPathOf cfg env p := ne_of_underDir hq hep
  have hq2 : q ≠ p := ne_of_underDir hq hp
  cases hsp : encoded_file_save_path cfg env p with
  | error e =>
    simp only [run_all_step, hsp]
    exact hmem
  | ok v =>
    obtain ⟨sp, evs1⟩ := v
    cases hdn : destination_filename cfg env p with
    | error e =>
      simp only [run_all_step, hsp, hdn]
      exact hmem
    | ok v2 =>
      obtain ⟨dn, evs2⟩ := v2
      cases hj : env.is_junk p with
      | true =>
        simp only [run_all_step, hsp, hdn, hj, if_true]
        split
        · exact hmem
        · next fs1 hrm => exact (removeFile_mem hrm q).mpr ⟨hmem, hq2⟩
      | false =>
        cases hg : env.guess_video_file p with
        | false =>
          simp only [run_all_step, hsp, hdn, hj, hg, Bool.false_eq_true,
            if_false, Bool.not_false, if_true]
          exact hmem
        | true =>
          cases hv : is_valid_video_file env p with
          | error e =>
            simp only [run_all_step, hsp, hdn, hj, hg, hv,
              Bool.false_eq_true, if_false, Bool.not_true]
            exact hmem
          | ok b =>
            cases b with
            | false =>
              simp only [run_all_step, hsp, hdn, hj, hg, hv,
                Bool.false_eq_true, if_false, Bool.not_true]
              exact hmem
            | true =>
              by_cases hsv : sp ∈ fs
              · simp only [run_all_step, hsp, hdn, hj, hg, hv,
                  Bool.false_eq_true, if_false, Bool.not_true, if_pos hsv]
                split
                · split
                  · exact hmem
                  · exact hmem
                  · split
                    · exact hmem
                    · split
                      · exact hmem
                      · split
                        · split
                          · exact hmem
                          · next fs1 hrm =>
                            exact (removeFile_mem hrm q).mpr ⟨hmem, hq2⟩
                        · exact hmem
                · exact hmem
              · simp only [run_all_step, hsp, hdn, hj, hg, hv,
                  Bool.false_eq_true, if_false, Bool.not_true, if_neg hsv]
                split
                · exact hmem
                · split
                  · exact hmem
                  · exact run_all_encode_mono _ _ _ _ _ _ _ _ _ hq1 hq2 hmem

theorem run_all_save_mono_all (cfg : Config) (env : Env) (L : List String) :
    ∀ (fs : FS),
    (∀ r ∈ L, ¬ underDir cfg.save_dir r ∧
      ¬ underDir cfg.save_dir (encodingPathOf cfg env r)) →
    ∀ q, underDir cfg.save_dir q → q ∈ fs → q ∈ (run_all cfg env L fs).fs := by
  induction L with
  | nil =>
    intro fs _ q _ hm
    exact hm
  | cons p rest ih =>
    intro fs hL q hq hm
    rw [run_all_cons]
    have h1 := run_all_step_save_mono cfg env fs p (hL p (by simp)).1
      (hL p (by simp)).2 q hq hm
    split
    · exact h1
    · exact ih _ (fun r hr => hL r (by simp [hr])) q hq h1

theorem mem_filter_ne_iff {fs : FS} {p q : String} (h : q ≠ p) :
    q ∈ fs.filter (fun x => x != p) ↔ q ∈ fs := by
  rw [mem_filter_ne]
  exact ⟨fun h => h.1, fun hm => ⟨hm, h⟩⟩

theorem moved_not_mem_append {evs1 evs2 : List Event}
    (h1 : ∀ a b, Event.movedFile a b ∉ evs1)
    (h2 : ∀ a b, Event.movedFile a b ∉ evs2) :
    ∀ a b, Event.movedFile a b ∉ evs1 ++ evs2 := by
  intro a b hm
  rcases List.mem_append.mp hm with h | h
  exacts [h1 a b h, h2 a b h]

theorem moved_not_mem_of_renamer_only {evs : List Event}
    (h : ∀ e ∈ evs, ∃ q, e = Event.invokedRenamer q) :
    ∀ a b, Event.movedFile a b ∉ evs := by
  intro a b hm
  obtain ⟨q, hq⟩ := h _ hm
  cases hq

theorem run_all_encode_pair (cfg : Config) (env : Env)
    (hkeep : cfg.keep_original = true)
    (p enc sp fc : String)
    (hep : ¬ underDir cfg.save_dir enc)
    (hspu : underDir cfg.save_dir sp)
    (hfcu : underDir cfg.save_dir fc)
    (fsA fsB fs1 : FS) (evsA evsB : List Event)
    (hencA : enc ∉ fsA) (hencB : enc ∉ fsB)
    (hA : (run_all_encode cfg env fsA p enc sp fc evsA).err = none)
    (hM2 : ∀ q, underDir cfg.save_dir q →
      q ∈ (run_all_encode cfg env fsA p enc sp fc evsA).fs → q ∈ fs1)
    (hInv : ∀ q, underDir cfg.save_dir q → (q ∈ fsB ↔ q ∈ fs1))
    (hspB : sp ∉ fsB)
    (hfcB : ¬ (cfg.move_failed_files = true ∧ fc ∈ fsB))
    (hmovB : ∀ a b, Event.movedFile a b ∉ evsB) :
    (∀ q, underDir cfg.save_dir q →
      (q ∈ (run_all_encode cfg env fsB p enc sp fc evsB).fs ↔ q ∈ fs1)) ∧
    (∀ a b, Event.movedFile a b ∉
      (run_all_encode cfg env fsB p enc sp fc evsB).events) := by
  cases heq : env.encoder_result p enc with
  | none =>
    simp only [run_all_encode, heq] at hA
    cases hA
  | some res =>
    cases hs : res.success with
    | true =>
      cases hw : res.wrote_output with
      | false =>
        exfalso
        simp only [run_all_encode, heq, hs, hw, Bool.false_eq_true, if_false,
          if_true, if_neg hencA] at hA
        unfold run_all_save at hA
        rw [moveFile_eq_none.mpr hencA] at hA
        cases hA
      | true =>
        cases hval : is_valid_video_file env enc with
        | error e =>
          exfalso
          simp only [run_all_encode, heq, hs, hw, if_true,
            if_pos (List.mem_insert_self enc fsA), hval] at hA
          cases hA
        | ok b =>
          cases b with
          | false =>
            constructor
            · intro q hq
              have hqenc : q ≠ enc := ne_of_underDir hq hep
              simp only [run_all_encode, heq, hs, hw, if_true,
                if_pos (List.mem_insert_self enc fsB), hval]
              rw [mem_filter_ne, List.mem_insert_iff]
              constructor
              · rintro ⟨h | h, -⟩
                · exact absurd h hqenc
                · exact (hInv q hq).mp h
              · intro h
                exact ⟨Or.inr ((hInv q hq).mpr h), hqenc⟩
            · intro a b
              simp only [run_all_encode, heq, hs, hw, if_true,
                if_pos (List.mem_insert_self enc fsB), hval]
              intro hm
              rcases List.mem_append.mp hm with hm | hm
              · rcases List.mem_append.mp hm with hm | hm
                · rcases List.mem_append.mp hm with hm | hm
                  · exact hmovB a b hm
                  · simp at hm
                · simp at hm
              · simp at hm
          | true =>
            exfalso
            have hmvA : moveFile (fsA.insert enc) enc sp =
                some (((fsA.insert enc).filter (fun q => q != enc)).insert sp) := by
              unfold moveFile
              rw [if_pos (List.mem_insert_self enc fsA)]
            have hspA : sp ∈ (run_all_encode cfg env fsA p enc sp fc evsA).fs := by
              simp only [run_all_encode, heq, hs, hw, if_true,
                if_pos (List.mem_insert_self enc fsA), hval]
              unfold run_all_save
              rw [hmvA]
              simp only [hkeep, Bool.not_true, Bool.false_eq_true, if_false]
              exact List.mem_insert_self _ _
            exact hspB ((hInv sp hspu).mpr (hM2 sp hspu hspA))
    | false =>
      cases hmv : cfg.move_failed_files with
      | true =>
        exfalso
        cases hw : res.wrote_output with
        | false =>
          simp only [run_all_encode, heq, hs, hw, Bool.false_eq_true, if_false,
            if_neg hencA, hmv, if_true] at hA hM2
          cases hmvA : moveFile fsA p fc with
          | none =>
            rw [hmvA] at hA
            cases hA
          | some fs3 =>
            rw [hmvA] at hM2
            have hfcm : fc ∈ fs3 := (moveFile_mem hmvA fc).mpr (Or.inl rfl)
            exact hfcB ⟨hmv, (hInv fc hfcu).mpr (hM2 fc hfcu hfcm)⟩
        | true =>
          simp only [run_all_encode, heq, hs, hw, Bool.false_eq_true, if_false,
            if_true, if_pos (List.mem_insert_self enc fsA), hmv] at hA hM2
          cases hmvA : moveFile ((fsA.insert enc).filter (fun q => q != enc))
              p fc with
          | none =>
            rw [hmvA] at hA
            cases hA
          | some fs3 =>
            rw [hmvA] at hM2
            have hfcm : fc ∈ fs3 := (moveFile_mem hmvA fc).mpr (Or.inl rfl)
            exact hfcB ⟨hmv, (hInv fc hfcu).mpr (hM2 fc hfcu hfcm)⟩
      | false =>
        constructor
        · intro q hq
          have hqenc : q ≠ enc := ne_of_underDir hq hep
          cases hw : res.wrote_output with
          | false =>
            simp only [run_all_encode, heq, hs, hw, Bool.false_eq_true,
              if_false, if_neg hencB, hmv]
            exact hInv q hq
          | true =>
            simp only [run_all_encode, heq, hs, hw, Bool.false_eq_true,
              if_false, if_true, if_pos (List.mem_insert_self enc fsB), hmv]
            rw [mem_filter_ne, List.mem_insert_iff]
            constructor
            · rintro ⟨h | h, -⟩
              · exact absurd h hqenc
              · exact (hInv q hq).mp h
            · intro h
              exact ⟨Or.inr ((hInv q hq).mpr h), hqenc⟩
        · intro a b
          cases hw : res.wrote_output with
          | false =>
            simp only [run_all_encode, heq, hs, hw, Bool.false_eq_true,
              if_false, if_neg hencB, hmv]
            intro hm
            rcases List.mem_append.mp hm with hm | hm
            · exact hmovB a b hm
            · simp at hm
          | true =>
            simp only [run_all_encode, heq, hs, hw, Bool.false_eq_true,
              if_false, if_true, if_pos (List.mem_insert_self enc fsB), hmv]
            intro hm
            rcases List.mem_append.mp hm with hm | hm
            · rcases List.mem_append.mp hm with hm | hm
              · rcases List.mem_append.mp hm with hm | hm
                · exact hmovB a b hm
                · simp at hm
              · simp at hm
            · simp at hm

theorem mem_remove_iff_target {fsB fs1 fs' : FS} {p q : String}
    (hrm : ∀ r, r ∈ fs' ↔ r ∈ fsB ∧ r ≠ p)
    (hq2 : q ≠ p) (hI : q ∈ fsB ↔ q ∈ fs1) : q ∈ fs' ↔ q ∈ fs1 := by
  rw [hrm q]
  exact ⟨fun h => hI.mp h.1, fun h => ⟨hI.mpr h, hq2⟩⟩

theorem run_all_step_conflict (cfg : Config) (env : Env) (fs : FS)
    (p sp dn : String) (evs1 evs2 : List Event)
    (hsp : encoded_file_save_path cfg env p = .ok (sp, evs1))
    (hdn : destination_filename cfg env p = .ok (dn, evs2))
    (hj : env.is_junk p = false) (hg : env.guess_video_file p = true)
    (hv : is_valid_video_file env p = .ok true)
    (hsave : sp ∉ fs)
    (hfc : ¬ (cfg.move_failed_files = true ∧ pathJoin cfg.save_dir dn ∈ fs))
    (henc : encodingPathOf cfg env p ∈ fs) :
    run_all_step cfg env fs p =
      ⟨fs, evs1 ++ evs2,
        some (.conflictVideoEncoding p (encodingPathOf cfg env p))⟩ := by
  unfold run_all_step
  rw [hsp, hdn]
  simp only [hj, hg, hv, Bool.not_true, Bool.false_eq_true, if_false]
  rw [if_neg hsave, if_neg hfc, if_pos henc]

theorem run2_step_preserves (cfg : Config) (env : Env)
    (hkeep : cfg.keep_original = true) (p : String)
    (hp : ¬ underDir cfg.save_dir p)
    (hep : ¬ underDir cfg.save_dir (encodingPathOf cfg env p))
    (fsA fsB fs1 : FS)
    (hA : (run_all_step cfg env fsA p).err = none)
    (hM2 : ∀ q, underDir cfg.save_dir q →
      q ∈ (run_all_step cfg env fsA p).fs → q ∈ fs1)
    (hInv : ∀ q, underDir cfg.save_dir q → (q ∈ fsB ↔ q ∈ fs1)) :
    (∀ q, underDir cfg.save_dir q →
      (q ∈ (run_all_step cfg env fsB p).fs ↔ q ∈ fs1)) ∧
    (∀ a b, Event.movedFile a b ∉ (run_all_step cfg env fsB p).events) := by
  have hM1 : ∀ q, underDir cfg.save_dir q → q ∈ fsA → q ∈ fs1 :=
    fun q hq hm => hM2 q hq (run_all_step_save_mono cfg env fsA p hp hep q hq hm)
  cases hsp : encoded_file_save_path cfg env p with
  | error e =>
    exfalso
    simp only [run_all_step, hsp] at hA
    cases hA
  | ok v =>
    obtain ⟨sp, evs1⟩ := v
    have hspu : underDir cfg.save_dir sp := underDir_save_of_esp hsp
    have hmov1 : ∀ a b, Event.movedFile a b ∉ evs1 :=
      moved_not_mem_of_renamer_only
        (renamer_only (encoded_file_save_path_ok_shape hsp).2)
    cases hdn : destination_filename cfg env p with
    | error e =>
      exfalso
      simp only [run_all_step, hsp, hdn] at hA
      cases hA
    | ok v2 =>
      obtain ⟨dn, evs2⟩ := v2
      have hmov2 : ∀ a b, Event.movedFile a b ∉ evs2 :=
        moved_not_mem_of_renamer_only (renamer_only
          ((destination_filename_ok_events hdn).imp id (fun h => ⟨_, h⟩)))
      have hmov12 := moved_not_mem_append hmov1 hmov2
      cases hj : env.is_junk p with
      | true =>
        cases hrm : removeFile fsB p with
        | none =>
          constructor
          · intro q hq
            simp only [run_all_step, hsp, hdn, hj, if_true, hrm]
            exact hInv q hq
          · intro a b
            simp only [run_all_step, hsp, hdn, hj, if_true, hrm]
            intro hm
            rcases List.mem_append.mp hm with h | h
            exacts [hmov12 a b h, by simp at h]
        | some fs' =>
          constructor
          · intro q hq
            simp only [run_all_step, hsp, hdn, hj, if_true, hrm]
            exact mem_remove_iff_target (removeFile_mem hrm)
              (ne_of_underDir hq hp) (hInv q hq)
          · intro a b
            simp only [run_all_step, hsp, hdn, hj, if_true, hrm]
            intro hm
            rcases List.mem_append.mp hm with h | h
            exacts [hmov12 a b h, by simp at h]
      | false =>
        cases hg : env.guess_video_file p with
        | false =>
          constructor
          · intro q hq
            simp only [run_all_step, hsp, hdn, hj, hg, Bool.false_eq_true,
              if_false, Bool.not_false, if_true]
            exact hInv q hq
          · intro a b
            simp only [run_all_step, hsp, hdn, hj, hg, Bool.false_eq_true,
              if_false, Bool.not_false, if_true]
            intro hm
            rcases List.mem_append.mp hm with h | h
            exacts [hmov12 a b h, by simp at h]
        | true =>
          cases hv : is_valid_video_file env p with
          | error e =>
            exfalso
            simp only [run_all_step, hsp, hdn, hj, hg, hv,
              Bool.false_eq_true, if_false, Bool.not_true] at hA
            cases hA
          | ok b =>
            cases b with
            | false =>
              constructor
              · intro q hq
                simp only [run_all_step, hsp, hdn, hj, hg, hv,
                  Bool.false_eq_true, if_false, Bool.not_true]
                exact hInv q hq
              · intro a b
                simp only [run_all_step, hsp, hdn, hj, hg, hv,
                  Bool.false_eq_true, if_false, Bool.not_true]
                intro hm
                rcases List.mem_append.mp hm with h | h
                exacts [hmov12 a b h, by simp at h]
            | true =>
              by_cases hsvB : sp ∈ fsB
              · cases hda : cfg.delete_almost_same_files with
                | false =>
                  constructor
                  · intro q hq
                    simp only [run_all_step, hsp, hdn, hj, hg, hv,
                      Bool.false_eq_true, if_false, Bool.not_true,
                      if_pos hsvB, hda]
                    exact hInv q hq
                  · intro a b
                    simp only [run_all_step, hsp, hdn, hj, hg, hv,
                      Bool.false_eq_true, if_false, Bool.not_true,
                      if_pos hsvB, hda]
                    intro hm
                    rcases List.mem_append.mp hm with h | h
                    exacts [hmov12 a b h, by simp at h]
                | true =>
                  cases hvs : is_valid_video_file env sp with
                  | error e =>
                    constructor
                    · intro q hq
                      simp only [run_all_step, hsp, hdn, hj, hg, hv,
                        Bool.false_eq_true, if_false, Bool.not_true,
                        if_pos hsvB, hda, hvs]
                      exact hInv q hq
                    · intro a b
                      simp only [run_all_step, hsp, hdn, hj, hg, hv,
                        Bool.false_eq_true, if_false, Bool.not_true,
                        if_pos hsvB, hda, hvs]
                      intro hm
                      exact hmov12 a b hm
                  | ok bb =>
                    cases bb with
                    | false =>
                      constructor
                      · intro q hq
                        simp only [run_all_step, hsp, hdn, hj, hg, hv,
                          Bool.false_eq_true, if_false, Bool.not_true,
                          if_pos hsvB, hda, hvs]
                        exact hInv q hq
                      · intro a b
                        simp only [run_all_step, hsp, hdn, hj, hg, hv,
                          Bool.false_eq_true, if_false, Bool.not_true,
                          if_pos hsvB, hda, hvs]
                        intro hm
                        exact hmov12 a b hm
                    | true =>
                      cases hd1 : rough_video_secs env sp with
                      | error e =>
                        constructor
                        · intro q hq
                          simp only [run_all_step, hsp, hdn, hj, hg, hv,
                            Bool.false_eq_true, if_false, Bool.not_true,
                            if_pos hsvB, hda, hvs, hd1]
                          exact hInv q hq
                        · intro a b
                          simp only [run_all_step, hsp, hdn, hj, hg, hv,
                            Bool.false_eq_true, if_false, Bool.not_true,
                            if_pos hsvB, hda, hvs, hd1]
                          intro hm
                          exact hmov12 a b hm
                      | ok d1 =>
                        cases hd2 : rough_video_secs env p with
                        | error e =>
                          constructor
                          · intro q hq
                            simp only [run_all_step, hsp, hdn, hj, hg, hv,
                              Bool.false_eq_true, if_false, Bool.not_true,
                              if_pos hsvB, hda, hvs, hd1, hd2]
                            exact hInv q hq
                          · intro a b
                            simp only [run_all_step, hsp, hdn, hj, hg, hv,
                              Bool.false_eq_true, if_false, Bool.not_true,
                              if_pos hsvB, hda, hvs, hd1, hd2]
                            intro hm
                            exact hmov12 a b hm
                        | ok d2 =>
                          cases halm : almost_eq d1 d2 (Frac.mk 1 100) with
                          | true =>
                            cases hrm : removeFile fsB p with
                            | none =>
                              constructor
                              · intro q hq
                                simp only [run_all_step, hsp, hdn, hj, hg, hv,
                                  Bool.false_eq_true, if_false, Bool.not_true,
                                  if_pos hsvB, hda, hvs, hd1, hd2, halm,
                                  if_true, hrm]
                                exact hInv q hq
                              · intro a b
                                simp only [run_all_step, hsp, hdn, hj, hg, hv,
                                  Bool.false_eq_true, if_false, Bool.not_true,
                                  if_pos hsvB, hda, hvs, hd1, hd2, halm,
                                  if_true, hrm]
                                intro hm
                                rcases List.mem_append.mp hm with h | h
                                exacts [hmov12 a b h, by simp at h]
                            | some fs' =>
                              constructor
                              · intro q hq
                                simp only [run_all_step, hsp, hdn, hj, hg, hv,
                                  Bool.false_eq_true, if_false, Bool.not_true,
                                  if_pos hsvB, hda, hvs, hd1, hd2, halm,
                                  if_true, hrm]
                                exact mem_remove_iff_target (removeFile_mem hrm)
                                  (ne_of_underDir hq hp) (hInv q hq)
                              · intro a b
                                simp only [run_all_step, hsp, hdn, hj, hg, hv,
                                  Bool.false_eq_true, if_false, Bool.not_true,
                                  if_pos hsvB, hda, hvs, hd1, hd2, halm,
                                  if_true, hrm]
                                intro hm
                                rcases List.mem_append.mp hm with h | h
                                exacts [hmov12 a b h, by simp at h]
                          | false =>
                            constructor
                            · intro q hq
                              simp only [run_all_step, hsp, hdn, hj, hg, hv,
                                Bool.false_eq_true, if_false, Bool.not_true,
                                if_pos hsvB, hda, hvs, hd1, hd2, halm]
                              exact hInv q hq
                            · intro a b
                              simp only [run_all_step, hsp, hdn, hj, hg, hv,
                                Bool.false_eq_true, if_false, Bool.not_true,
                                if_pos hsvB, hda, hvs, hd1, hd2, halm]
                              intro hm
                              rcases List.mem_append.mp hm with h | h
                              exacts [hmov12 a b h, by simp at h]
              · by_cases hfcB2 : cfg.move_failed_files = true ∧
                    pathJoin cfg.save_dir dn ∈ fsB
                · constructor
                  · intro q hq
                    simp only [run_all_step, hsp, hdn, hj, hg, hv,
                      Bool.false_eq_true, if_false, Bool.not_true,
                      if_neg hsvB, if_pos hfcB2]
                    exact hInv q hq
                  · intro a b
                    simp only [run_all_step, hsp, hdn, hj, hg, hv,
                      Bool.false_eq_true, if_false, Bool.not_true,
                      if_neg hsvB, if_pos hfcB2]
                    intro hm
                    exact hmov12 a b hm
                · by_cases hencB : encodingPathOf cfg env p ∈ fsB
                  · constructor
                    · intro q hq
                      simp only [run_all_step, hsp, hdn, hj, hg, hv,
                        Bool.false_eq_true, if_false, Bool.not_true,
                        if_neg hsvB, if_neg hfcB2, if_pos hencB]
                      exact hInv q hq
                    · intro a b
                      simp only [run_all_step, hsp, hdn, hj, hg, hv,
                        Bool.false_eq_true, if_false, Bool.not_true,
                        if_neg hsvB, if_neg hfcB2, if_pos hencB]
                      intro hm
                      exact hmov12 a b hm
                  · have hsvA : sp ∉ fsA := fun hin =>
                      hsvB ((hInv sp hspu).mpr (hM1 sp hspu hin))
                    have hfcA : ¬ (cfg.move_failed_files = true ∧
                        pathJoin cfg.save_dir dn ∈ fsA) := by
                      rintro ⟨hm, hin⟩
                      exact hfcB2 ⟨hm, (hInv _ (underDir_pathJoin _ _)).mpr
                        (hM1 _ (underDir_pathJoin _ _) hin)⟩
                    have hencA : encodingPathOf cfg env p ∉ fsA := by
                      intro hin
                      rw [run_all_step_conflict cfg env fsA p sp dn evs1 evs2
                        hsp hdn hj hg hv hsvA hfcA hin] at hA
                      cases hA
                    rw [run_all_step_past_checks cfg env fsA p sp dn evs1 evs2
                      hsp hdn hj hg hv hsvA hfcA hencA] at hA hM2
                    rw [run_all_step_past_checks cfg env fsB p sp dn evs1 evs2
                      hsp hdn hj hg hv hsvB hfcB2 hencB]
                    exact run_all_encode_pair cfg env hkeep p
                      (encodingPathOf cfg env p) sp (pathJoin cfg.save_dir dn)
                      hep hspu (underDir_pathJoin _ _) fsA fsB fs1
                      (evs1 ++ evs2) (evs1 ++ evs2) hencA hencB hA hM2 hInv
                      hsvB hfcB2 hmov12

theorem run2_preserves_all (cfg : Config) (env : Env)
    (hkeep : cfg.keep_original = true) (L : List String) :
    ∀ (fsA fsB fs1 : FS),
    (∀ r ∈ L, ¬ underDir cfg.save_dir r ∧
      ¬ underDir cfg.save_dir (encodingPathOf cfg env r)) →
    (run_all cfg env L fsA).err = none →
    (∀ q, underDir cfg.save_dir q → q ∈ (run_all cfg env L fsA).fs → q ∈ fs1) →
    (∀ q, underDir cfg.save_dir q → (q ∈ fsB ↔ q ∈ fs1)) →
    (∀ q, underDir cfg.save_dir q →
      (q ∈ (run_all cfg env L fsB).fs ↔ q ∈ fs1)) ∧
    (∀ a b, Event.movedFile a b ∉ (run_all cfg env L fsB).events) := by
  induction L with
  | nil =>
    intro fsA fsB fs1 _ _ _ hInv
    exact ⟨fun q hq => hInv q hq, fun a b hm => by simp [run_all] at hm⟩
  | cons p rest ih =>
    intro fsA fsB fs1 hL hAerr hM2 hInv
    have hp : ¬ underDir cfg.save_dir p := (hL p (by simp)).1
    have hep : ¬ underDir cfg.save_dir (encodingPathOf cfg env p) :=
      (hL p (by simp)).2
    have hL' : ∀ r ∈ rest, ¬ underDir cfg.save_dir r ∧
        ¬ underDir cfg.save_dir (encodingPathOf cfg env r) :=
      fun r hr => hL r (by simp [hr])
    cases hsa : (run_all_step cfg env fsA p).err with
    | some e =>
      exfalso
      simp only [run_all_cons, hsa] at hAerr
      cases hAerr
    | none =>
      simp only [run_all_cons, hsa] at hAerr hM2
      have hM2step : ∀ q, underDir cfg.save_dir q →
          q ∈ (run_all_step cfg env fsA p).fs → q ∈ fs1 :=
        fun q hq hm =>
          hM2 q hq (run_all_save_mono_all cfg env rest _ hL' q hq hm)
      obtain ⟨hstepB, hstepBev⟩ := run2_step_preserves cfg env hkeep p hp hep
        fsA fsB fs1 hsa hM2step hInv
      cases hsb : (run_all_step cfg env fsB p).err with
      | some e =>
        constructor
        · intro q hq
          simp only [run_all_cons, hsb]
          exact hstepB q hq
        · intro a b
          simp only [run_all_cons, hsb]
          exact hstepBev a b
      | none =>
        obtain ⟨h1, h2⟩ := ih (run_all_step cfg env fsA p).fs
          (run_all_step cfg env fsB p).fs fs1 hL' hAerr hM2 hstepB
        constructor
        · intro q hq
          simp only [run_all_cons, hsb]
          exact h1 q hq
        · intro a b
          simp only [run_all_cons, hsb]
          intro hm
          rcases List.mem_append.mp hm with h | h
          exacts [hstepBev a b h, h2 a b h]

/-- C3: running the batch pipeline a second time over the same file list with
keep_original = true, starting from the file system the first (error-free) run
produced, leaves the save directory's contents exactly as they were after the
first run, and the second run relocates no file (every file that was encoded
in the first run is skipped because its save path already exists). -/
theorem c3_idempotent_rerun (cfg : Config) (env : Env) (L : List String)
    (fs0 : FS) (hkeep : cfg.keep_original = true)
    (hsrc : ∀ r ∈ L, ¬ underDir cfg.save_dir r ∧
      ¬ underDir cfg.save_dir (encodingPathOf cfg env r))
    (herr : (run_all cfg env L fs0).err = none) :
    (∀ q, underDir cfg.save_dir q →
      (q ∈ (run_all cfg env L (run_all cfg env L fs0).fs).fs ↔
        q ∈ (run_all cfg env L fs0).fs)) ∧
    (∀ a b, Event.movedFile a b ∉
      (run_all cfg env L (run_all cfg env L fs0).fs).events) :=
  run2_preserves_all cfg env hkeep L fs0 (run_all cfg env L fs0).fs
    (run_all cfg env L fs0).fs hsrc herr (fun _ _ hm => hm)
    (fun _ _ => Iff.rfl)

theorem c3_witness :
    (∀ q, underDir wCfg.save_dir q →
      (q ∈ (run_all wCfg wEnvOk ["/v/a.mp4"]
          (run_all wCfg wEnvOk ["/v/a.mp4"] ["/v/a.mp4"]).fs).fs ↔
        q ∈ (run_all wCfg wEnvOk ["/v/a.mp4"] ["/v/a.mp4"]).fs)) ∧
    (∀ a b, Event.movedFile a b ∉
      (run_all wCfg wEnvOk ["/v/a.mp4"]
        (run_all wCfg wEnvOk ["/v/a.mp4"] ["/v/a.mp4"]).fs).events) :=
  c3_idempotent_rerun wCfg wEnvOk ["/v/a.mp4"] ["/v/a.mp4"] (by decide)
    (by decide) (by decide)

end BatchAv1